import Mathlib

/-!
Wessie/bosun: the `collect` pipeline and the metadata tracker.

A shallow embedding of

* `collect/collect.go`  (`InitChan`, `Init`, `setHostName`, `Set`, `Add`, `check`,
  `checkClean`, `collect`, and the ingestion consumer started by `InitChan`),
* `collect/queue.go`    (`send`, `sendBatch`, `recordSent`),
* `metadata/metadata.go` (`AddMeta`).

Conventions of the embedding.

* The package-level variables become the fields of one record, `State`; every
  function takes the state and returns the new one.
* Go's `int64` is `Int` with an explicit `wrap64` after each addition.
* A Go `map[string]T` is an association list with unique keys (`mapGet`, `mapPut`);
  iteration over a map visits the list in order (Go leaves the order unspecified).
* A tag set is `Option (List (String × String))`; `none` is the nil map.
* The channel `tchan` is `Option (List DataPoint)`: `none` is the nil channel,
  `some l` a channel on which the points `l` have been sent and not yet received.
  A send on the nil channel never returns, which the model renders as `none`.
* A gauge callback `func() int64` is a function of what it can observe (the `dropped`
  and `sent` counters and the rest of the process, the *world*) that returns its
  result together with the world it leaves behind.
* Goroutines are rendered by their loop bodies: `ingest`/`consume` (the consumer
  started in `InitChan`), `collect` (one snapshot pass), `send` (one iteration).
* What the code calls in package `opentsdb`, in the Go runtime and in the
  operating system is not among the sources and is a parameter (`Env`, `MetaEnv`).
-/

namespace Collect

/-! ## Machine integers -/

/-- Two's-complement reduction of an integer to the range of `int64`. -/
def wrap64 (x : Int) : Int := (x + 9223372036854775808) % 18446744073709551616 - 9223372036854775808

/-- The values an `int64` can hold. -/
def isInt64 (x : Int) : Prop := -9223372036854775808 ≤ x ∧ x < 9223372036854775808

/-! ## Go maps as association lists -/

/-- Read of a Go map: `m[k]`, with `none` for an absent key. -/
def mapGet {κ α : Type} [DecidableEq κ] (k : κ) : List (κ × α) → Option α
  | [] => none
  | (k', v) :: r => if k' = k then some v else mapGet k r

/-- Write of a Go map: `m[k] = v`; an existing entry is overwritten in place. -/
def mapPut {κ α : Type} [DecidableEq κ] (k : κ) (v : α) : List (κ × α) → List (κ × α)
  | [] => [(k, v)]
  | (k', v') :: r => if k' = k then (k, v) :: r else (k', v') :: mapPut k v r

/-! ## Data model -/

/-- The entries of a non-nil `opentsdb.TagSet`. -/
abbrev Tags := List (String × String)

/-- An `opentsdb.TagSet`, a `map[string]string`; `none` is the nil map. -/
abbrev TagSet := Option Tags

/-- An `opentsdb.DataPoint`. -/
structure DataPoint where
  Metric : String
  Timestamp : Int
  Value : Int
  Tags : TagSet
deriving DecidableEq, Repr

/-- The errors the package returns. `clean` carries the error of `opentsdb.Clean`,
`notClean` is the `Errorf` of `checkClean` with the role and the offending string. -/
inductive Error where
  | initTwice
  | hostname (msg : String)
  | clean (msg : String)
  | notClean (role s : String)
  | emptyHost
  | notInit
deriving DecidableEq, Repr

/-- What a gauge callback can observe when it runs. -/
structure View (W : Type) where
  dropped : Int
  sent : Int
  world : W

/-- A gauge callback, `func() int64`: its result and the world it leaves. -/
abbrev Callback (W : Type) := View W → Int × W

/-- The Go struct `addMetric`. -/
structure addMetric where
  metric : String
  ts : TagSet
  value : Int
deriving DecidableEq, Repr

/-- The Go struct `setMetric`. -/
structure setMetric (W : Type) where
  metric : String
  ts : TagSet
  f : Callback W

/-- The parts of package `opentsdb`, of the Go runtime and library the code calls,
none of which is among the sources. -/
structure Env (W : Type) where
  /-- The function `opentsdb.Clean`: the cleaned string and an error, if any. -/
  Clean : String → String × Option String
  /-- The method `TagSet.String` of a non-nil tag set. -/
  tagString : Tags → String
  /-- The function `strings.ToLower`. -/
  ToLower : String → String
  /-- The field `Alloc` of `runtime.MemStats`, a `uint64`. -/
  memAlloc : W → Nat
  /-- The function `runtime.NumGoroutine`. -/
  numGoroutine : W → Int

/-- The package-level variables of `collect` (with `Debug` and `Print`, which
`queue.go` reads), and the world outside the package. -/
structure State (W : Type) where
  MaxQueueLen : Int
  BatchSize : Int
  Debug : Bool
  Print : Bool
  dropped : Int
  sent : Int
  tchan : Option (List DataPoint)
  tsdbURL : String
  osHostname : String
  metricRoot : String
  queue : List DataPoint
  counters : List (String × addMetric)
  sets : List (String × setMetric W)
  world : W

/-- The package state before any call: the declared defaults, the rest zero. -/
def State.initial {W : Type} (w : W) : State W :=
  { MaxQueueLen := 200000, BatchSize := 50, Debug := false, Print := false,
    dropped := 0, sent := 0, tchan := none, tsdbURL := "", osHostname := "",
    metricRoot := "", queue := [], counters := [], sets := [], world := w }

/-! ## collect.go -/

/-- The Go function `checkClean`: an error unless `Clean` returns `s` itself, without error. -/
def checkClean {W : Type} (env : Env W) (s t : String) : Option Error :=
  if (env.Clean s).1 ≠ s ∨ (env.Clean s).2 ≠ none then
    match (env.Clean s).2 with
    | some e => some (Error.clean e)
    | none => some (Error.notClean t s)
  else none

/-- The loop of `check` over the tag set: the first error met, if any. -/
def checkTags {W : Type} (env : Env W) : Tags → Option Error
  | [] => none
  | (k, v) :: r =>
    match checkClean env k "tagk" with
    | some e => some e
    | none =>
      match checkClean env v "tagv" with
      | some e => some e
      | none => checkTags env r

/-- The Go function `check`: the error, or the tag set `*ts` is left with. -/
def check {W : Type} (env : Env W) (s : State W) (metric : String) (ts : TagSet) :
    Except Error Tags :=
  if s.tchan = none then Except.error Error.notInit
  else
    match checkClean env metric "metric" with
    | some e => Except.error e
    | none =>
      match checkTags env (ts.getD []) with
      | some e => Except.error e
      | none =>
        let l := ts.getD []
        if (mapGet "host" l).isSome then Except.ok l
        else Except.ok (mapPut "host" s.osHostname l)

/-- What a call of `Add` or `Set` leaves: the error returned, the package state, and
the caller's tag set (a non-nil map is shared with the callee, so the caller sees
what `check` wrote into it; a nil one stays nil). -/
structure CallResult (W : Type) where
  err : Option Error
  state : State W
  ts : TagSet

/-- The caller's view of its tag set once `check` has left `l` in `*ts`. -/
def callerTags (ts : TagSet) (l : Tags) : TagSet :=
  match ts with
  | none => none
  | some _ => some l

/-- The Go function `Set`. -/
def Set {W : Type} (env : Env W) (s : State W) (metric : String) (ts : TagSet)
    (f : Callback W) : CallResult W :=
  match check env s metric ts with
  | Except.error e => { err := some e, state := s, ts := ts }
  | Except.ok l =>
    let tss := metric ++ env.tagString l
    { err := none,
      state := { s with sets := mapPut tss { metric := metric, ts := some l, f := f } s.sets },
      ts := callerTags ts l }

/-- The Go function `Add`. -/
def Add {W : Type} (env : Env W) (s : State W) (metric : String) (inc : Int) (ts : TagSet) :
    CallResult W :=
  match check env s metric ts with
  | Except.error e => { err := some e, state := s, ts := ts }
  | Except.ok l =>
    let tss := metric ++ env.tagString l
    let c : addMetric :=
      match mapGet tss s.counters with
      | none => { metric := metric, ts := some l, value := 0 }
      | some c => c
    { err := none,
      state := { s with counters := mapPut tss { c with value := wrap64 (c.value + inc) } s.counters },
      ts := callerTags ts l }

/-- The first of the at most two pieces of `strings.SplitN(h, ".", 2)`. -/
def firstLabel (h : String) : String := String.mk (h.data.takeWhile (fun c => c ≠ '.'))

/-- The Go function `setHostName`; `host` is what `os.Hostname()` returns. -/
def setHostName {W : Type} (env : Env W) (s : State W) (host : String × Option String) :
    State W × Option Error :=
  match host.2 with
  | some e => (s, some (Error.hostname e))
  | none =>
    let s1 := { s with osHostname := env.ToLower (firstLabel host.1) }
    (s1, checkClean env s1.osHostname "host tag")

/-- The gauge `collect.dropped`. -/
def droppedGauge {W : Type} : Callback W := fun v => (v.dropped, v.world)

/-- The gauge `collect.sent`. -/
def sentGauge {W : Type} : Callback W := fun v => (v.sent, v.world)

/-- The gauge `collect.alloc`. -/
def allocGauge {W : Type} (env : Env W) : Callback W :=
  fun v => (wrap64 (env.memAlloc v.world), v.world)

/-- The gauge `collect.goroutines`. -/
def goroutinesGauge {W : Type} (env : Env W) : Callback W :=
  fun v => (env.numGoroutine v.world, v.world)

/-- The Go function `InitChan`; `host` is what `os.Hostname()` returns, `ch` the
channel passed (`none` for a nil channel). The three goroutines it starts are the
functions `consume`, `send` and `collect` below. -/
def InitChan {W : Type} (env : Env W) (s : State W) (tsdbhost metric_root : String)
    (ch : Option (List DataPoint)) (host : String × Option String) : State W × Option Error :=
  if s.tchan ≠ none then (s, some Error.initTwice)
  else
    match setHostName env s host with
    | (s1, some e) => (s1, some e)
    | (s1, none) =>
      match checkClean env metric_root "metric root" with
      | some e => (s1, some e)
      | none =>
        if tsdbhost = "" then (s1, some Error.emptyHost)
        else
          let h := if ':' ∈ tsdbhost.data then tsdbhost else tsdbhost ++ ":4242"
          let s2 := { s1 with tsdbURL := "http://" ++ h ++ "/api/put",
                              metricRoot := metric_root ++ ".", tchan := ch }
          let s3 := (Set env s2 "collect.dropped" none droppedGauge).state
          let s4 := (Set env s3 "collect.sent" none sentGauge).state
          let s5 := (Set env s4 "collect.alloc" none (allocGauge env)).state
          let s6 := (Set env s5 "collect.goroutines" none (goroutinesGauge env)).state
          (s6, none)

/-- The Go function `Init`: `InitChan` with a fresh channel. -/
def Init {W : Type} (env : Env W) (s : State W) (tsdbhost metric_root : String)
    (host : String × Option String) : State W × Option Error :=
  InitChan env s tsdbhost metric_root (some []) host

/-- The statement `tchan <- dp`; `none` when the channel is nil (the send blocks forever). -/
def chanSend {W : Type} (s : State W) (dp : DataPoint) : Option (State W) :=
  match s.tchan with
  | none => none
  | some c => some { s with tchan := some (c ++ [dp]) }

/-- The first loop of a `collect` pass, over the counters. -/
def collectCounters {W : Type} (now : Int) : List (String × addMetric) → State W → Option (State W)
  | [], s => some s
  | (_, c) :: r, s =>
    match chanSend s { Metric := s.metricRoot ++ c.metric, Timestamp := now,
                       Value := c.value, Tags := c.ts } with
    | none => none
    | some s1 => collectCounters now r s1

/-- The second loop of a `collect` pass, over the gauges: each callback is invoked. -/
def collectSets {W : Type} (now : Int) : List (String × setMetric W) → State W → Option (State W)
  | [], s => some s
  | (_, g) :: r, s =>
    let res := g.f { dropped := s.dropped, sent := s.sent, world := s.world }
    match chanSend { s with world := res.2 }
        { Metric := s.metricRoot ++ g.metric, Timestamp := now, Value := res.1, Tags := g.ts } with
    | none => none
    | some s1 => collectSets now r s1

/-- One pass of the loop of the Go function `collect`, at unix time `now`. -/
def collect {W : Type} (s : State W) (now : Int) : Option (State W) :=
  match collectCounters now s.counters s with
  | none => none
  | some s1 => collectSets now s1.sets s1

/-- The body of the consumer loop of `InitChan` for a received point `dp`. -/
def ingest {W : Type} (s : State W) (dp : DataPoint) : State W :=
  if (s.queue.length : Int) > s.MaxQueueLen then { s with dropped := wrap64 (s.dropped + 1) }
  else { s with queue := s.queue ++ [dp] }

/-- One iteration of the consumer loop: receive the oldest point on `tchan` and
ingest it; `none` when there is nothing to receive. -/
def consume {W : Type} (s : State W) : Option (State W) :=
  match s.tchan with
  | some (dp :: rest) => some (ingest { s with tchan := some rest } dp)
  | _ => none

/-! ## queue.go -/

/-- How one delivery attempt of `sendBatch` turns out: the JSON encoder fails, closing
the gzip writer fails, `http.NewRequest` fails, `client.Do` fails, or the sink
answers with a status code. -/
inductive Outcome where
  | encodeError
  | closeError
  | requestError
  | transportError
  | status (code : Nat)
deriving DecidableEq, Repr

/-- What `send` and `sendBatch` leave: the package state and the two local counts
`old` and `restored` of the failure branch (zero when it is not taken). -/
structure SendResult (W : Type) where
  state : State W
  old : Nat
  restored : Nat

/-- The Go function `recordSent`. -/
def recordSent {W : Type} (s : State W) (num : Nat) : State W :=
  { s with sent := wrap64 (s.sent + num) }

/-- The loop of the failure branch of `sendBatch` with cutoff `t`: a point older than
the cutoff is counted in `old`, any other is counted in `restored` and sent on `tchan`. -/
def requeue {W : Type} (t : Int) : List DataPoint → State W → Nat → Nat → Option (SendResult W)
  | [], s, old, restored => some { state := s, old := old, restored := restored }
  | dp :: r, s, old, restored =>
    if dp.Timestamp < t then requeue t r s (old + 1) restored
    else
      match chanSend s dp with
      | none => none
      | some s1 => requeue t r s1 old (restored + 1)

/-- The Go function `sendBatch` for a delivery attempt that turns out as `o`, at unix
time `now` (so that `time.Now().Add(-time.Minute * 30).Unix()` is `now - 1800`). -/
def sendBatch {W : Type} (s : State W) (batch : List DataPoint) (o : Outcome) (now : Int) :
    Option (SendResult W) :=
  if s.Print then some { state := recordSent s batch.length, old := 0, restored := 0 }
  else
    match o with
    | Outcome.encodeError => some { state := s, old := 0, restored := 0 }
    | Outcome.closeError => some { state := s, old := 0, restored := 0 }
    | Outcome.requestError => some { state := s, old := 0, restored := 0 }
    | Outcome.transportError => requeue (now - 1800) batch s 0 0
    | Outcome.status code =>
      if code ≠ 204 then requeue (now - 1800) batch s 0 0
      else some { state := recordSent s batch.length, old := 0, restored := 0 }

/-- One iteration of the loop of the Go function `send`; `none` when the slice
expression `queue[:i]` panics (a negative `BatchSize`) or the requeue blocks. -/
def send {W : Type} (s : State W) (o : Outcome) (now : Int) : Option (SendResult W) :=
  if (s.queue.length : Int) > 0 then
    let i : Int := if (s.queue.length : Int) > s.BatchSize then s.BatchSize else s.queue.length
    if i < 0 then none
    else sendBatch { s with queue := s.queue.drop i.toNat } (s.queue.take i.toNat) o now
  else some { state := s, old := 0, restored := 0 }

/-! ## Predicates used in the statements -/

/-- The string passes validation: `Clean` returns it unaltered and without error. -/
def isClean {W : Type} (env : Env W) (x : String) : Prop :=
  (env.Clean x).1 = x ∧ (env.Clean x).2 = none

instance {W : Type} (env : Env W) (x : String) : Decidable (isClean env x) :=
  inferInstanceAs (Decidable (_ ∧ _))

/-- Every key and every value of the tag set passes validation. -/
def validTags {W : Type} (env : Env W) (l : Tags) : Prop :=
  ∀ kv ∈ l, isClean env kv.1 ∧ isClean env kv.2

instance {W : Type} (env : Env W) (l : Tags) : Decidable (validTags env l) :=
  inferInstanceAs (Decidable (∀ kv ∈ l, _))

/-- The tag set `check` leaves in `*ts`: `l` itself when it has a `host` key,
otherwise `l` with the entry `host = h` added. -/
def hostTags (h : String) (l : Tags) : Tags :=
  if (mapGet "host" l).isSome then l else mapPut "host" h l

/-- The keys of a Go map. -/
def keys {κ α : Type} (m : List (κ × α)) : List κ := m.map Prod.fst

/-- The counter `Add` works on: the one stored under the key, or a new one at zero. -/
def counterAt (metric : String) (l : Tags) (key : String) (cs : List (String × addMetric)) :
    addMetric :=
  (mapGet key cs).getD { metric := metric, ts := some l, value := 0 }

/-- The key `tss` under which `Add` and `Set` file the identity `(m, ts)`:
the metric name followed by the string of the tag set `check` leaves. -/
def tssOf {W : Type} (env : Env W) (s : State W) (m : String) (ts : TagSet) : String :=
  m ++ env.tagString (hostTags s.osHostname (ts.getD []))

/-- The consumer loop of `InitChan` run on the points `pts`, received in this order,
with no other goroutine running in between. -/
def ingestAll {W : Type} (s : State W) (pts : List DataPoint) : State W :=
  pts.foldl ingest s

/-- The calls and goroutine steps that act on the package state: the arguments of a
call of `Init`, `Add` or `Set`, one `collect` pass at a given time, one iteration of the
consumer, one iteration of `send` with the outcome of its delivery attempt. -/
inductive Op (W : Type) where
  | init (tsdbhost metric_root : String) (host : String × Option String)
  | add (metric : String) (inc : Int) (ts : TagSet)
  | set (metric : String) (ts : TagSet) (f : Callback W)
  | snapshot (now : Int)
  | receive
  | deliver (o : Outcome) (now : Int)

/-- The state an operation leaves; a step that cannot be taken (a goroutine that
blocks or panics) leaves the state as it is. -/
def step {W : Type} (env : Env W) (s : State W) : Op W → State W
  | Op.init h r host => (Init env s h r host).1
  | Op.add m inc ts => (Add env s m inc ts).state
  | Op.set m ts f => (Set env s m ts f).state
  | Op.snapshot now => (collect s now).getD s
  | Op.receive => (consume s).getD s
  | Op.deliver o now =>
    match send s o now with
    | some r => r.state
    | none => s

/-- The state a sequence of operations leaves. -/
def run {W : Type} (env : Env W) (s : State W) (ops : List (Op W)) : State W :=
  ops.foldl (step env) s

/-- The identity key is injective on validated input: two validated identities filed
under the same key have the same metric name and, as maps, the same tag set. This is
what makes the string of a tag set *canonical*. -/
def KeyInjective {W : Type} (env : Env W) : Prop :=
  ∀ (m1 m2 : String) (l1 l2 : Tags), isClean env m1 → isClean env m2 →
    validTags env l1 → validTags env l2 →
    m1 ++ env.tagString l1 = m2 ++ env.tagString l2 →
    m1 = m2 ∧ ∀ k, mapGet k l1 = mapGet k l2

/-- The counter `e`, stored under `key`, has a validated identity and `key` is its key. -/
def entryOK {W : Type} (env : Env W) (e : String × addMetric) : Prop :=
  e.2.ts ≠ none ∧ e.1 = e.2.metric ++ env.tagString (e.2.ts.getD []) ∧
    isClean env e.2.metric ∧ validTags env (e.2.ts.getD [])

instance {W : Type} (env : Env W) (e : String × addMetric) : Decidable (entryOK env e) :=
  inferInstanceAs (Decidable (_ ∧ _ ∧ _ ∧ _))

/-- The invariant of the package state: the two maps of the registry have distinct
keys, every counter is filed under the key of its validated identity, and the host name
of an initialised pipeline passes validation. -/
def RegOK {W : Type} (env : Env W) (s : State W) : Prop :=
  (keys s.counters).Nodup ∧ (keys s.sets).Nodup ∧ (∀ e ∈ s.counters, entryOK env e) ∧
    (s.tchan ≠ none → isClean env s.osHostname)

instance {W : Type} (env : Env W) (s : State W) : Decidable (RegOK env s) :=
  inferInstanceAs (Decidable (_ ∧ _ ∧ (∀ e ∈ s.counters, _) ∧ (_ → _)))

/-- The data point belongs to the identity `(m, l)`: its metric is the root followed by
`m` and its tags are `l`. -/
def ofIdentity (root m : String) (l : Tags) (dp : DataPoint) : Prop :=
  dp.Metric = root ++ m ∧ dp.Tags = some l

instance (root m : String) (l : Tags) (dp : DataPoint) : Decidable (ofIdentity root m l dp) :=
  inferInstanceAs (Decidable (_ ∧ _))

/-- The gauge `e`, stored under `key`, has a non-nil tag set and `key` is the key of its
identity. -/
def gaugeOK {W : Type} (env : Env W) (e : String × setMetric W) : Prop :=
  e.2.ts ≠ none ∧ e.1 = e.2.metric ++ env.tagString (e.2.ts.getD [])

instance {W : Type} (env : Env W) (e : String × setMetric W) : Decidable (gaugeOK env e) :=
  inferInstanceAs (Decidable (_ ∧ _))

/-- The invariant of the gauges: every gauge is filed under the key of its identity. -/
def SetsOK {W : Type} (env : Env W) (s : State W) : Prop :=
  ∀ e ∈ s.sets, gaugeOK env e

instance {W : Type} (env : Env W) (s : State W) : Decidable (SetsOK env s) :=
  inferInstanceAs (Decidable (∀ e ∈ s.sets, _))

/-- The data point a `collect` pass builds for a counter. -/
def counterPoint (root : String) (now : Int) (c : addMetric) : DataPoint :=
  { Metric := root ++ c.metric, Timestamp := now, Value := c.value, Tags := c.ts }

/-- The data points a `collect` pass builds for the counters, one per entry. -/
def counterPoints (root : String) (now : Int) (cs : List (String × addMetric)) : List DataPoint :=
  cs.map (fun e => counterPoint root now e.2)

/-- The world the callbacks of the gauges `gs`, invoked in turn, leave behind. -/
def worldAfter {W : Type} (dropped sent : Int) : List (String × setMetric W) → W → W
  | [], w => w
  | (_, g) :: r, w => worldAfter dropped sent r (g.f { dropped := dropped, sent := sent, world := w }).2

/-- The data points a `collect` pass builds for the gauges `gs`, one per entry, each
value being what the callback returns when it is invoked in its turn. -/
def gaugePoints {W : Type} (root : String) (now dropped sent : Int) :
    List (String × setMetric W) → W → List DataPoint
  | [], _ => []
  | (_, g) :: r, w =>
    { Metric := root ++ g.metric, Timestamp := now,
      Value := (g.f { dropped := dropped, sent := sent, world := w }).1, Tags := g.ts } ::
      gaugePoints root now dropped sent r (g.f { dropped := dropped, sent := sent, world := w }).2

/-! ## A concrete environment

The theorems below hold for every environment. To evaluate the code on concrete
inputs, this section gives one environment, following the spec's description of the
functions that are not among the sources. -/

/-- The characters the spec allows in a metric name, tag key or tag value; of the
letters, the ASCII ones. -/
def allowedChar (c : Char) : Bool :=
  c.isAlphanum || c == '-' || c == '_' || c == '.' || c == '/'

/-- Modelled from the spec: `opentsdb.Clean` is not among the sources. It keeps the
allowed characters of its argument and fails when nothing is left. -/
def cleanModel (s : String) : String × Option String :=
  (String.mk (s.data.filter allowedChar),
    if s.data.filter allowedChar = [] then some "clean result is empty" else none)

/-- The entries of a tag set as `k=v`, separated by commas. -/
def tagsBody : Tags → List Char
  | [] => []
  | (k, v) :: r =>
    match r with
    | [] => k.data ++ '=' :: v.data
    | _ :: _ => k.data ++ '=' :: (v.data ++ ',' :: tagsBody r)

/-- Modelled from the spec: `TagSet.String` is not among the sources. The canonical
string of a tag set, `{k=v,...}`, its entries in the order of the list. -/
def tagStringModel (l : Tags) : String := String.mk ('{' :: (tagsBody l ++ ['}']))

/-- Modelled from the spec: `TagSet.Tags` is not among the sources. The canonical
string of a tag set without the braces, `k=v,...`. -/
def tagsStringModel (l : Tags) : String := String.mk (tagsBody l)

/-- A concrete environment: the world is a number (a count of callback invocations, say). -/
def sampleEnv : Env Nat :=
  { Clean := cleanModel,
    tagString := tagStringModel,
    ToLower := fun s => String.mk (s.data.map Char.toLower),
    memAlloc := fun _ => 4096,
    numGoroutine := fun _ => 4 }

/-- A callback that returns 7 the first time it is invoked and 9 from then on, the
world being the number of invocations so far. -/
def sevenThenNine : Callback Nat := fun v => (if v.world = 0 then 7 else 9, v.world + 1)

/-- The state after `Init("tsdb", "app")` on a host named `Web01.example.com`. -/
def sampleState : State Nat :=
  (Init sampleEnv (State.initial 0) "tsdb" "app" ("Web01.example.com", none)).1

end Collect

namespace Metadata

open Collect (Tags TagSet mapGet mapPut)

/-! ## metadata.go -/

/-- The Go struct `Metakey`. -/
structure Metakey where
  Metric : String
  Tags : String
  Name : String
deriving DecidableEq, Repr

/-- The library functions `AddMeta` calls: `TagSet.Tags` of package `opentsdb`
(not among the sources) and `reflect.DeepEqual` on the values stored. -/
structure MetaEnv (V : Type) where
  tagsString : Tags → String
  DeepEqual : V → V → Bool

/-- The package-level variables `AddMeta` uses, and `util.Hostname`. -/
structure MetaState (V : Type) where
  metadata : List (Metakey × V)
  metadebug : Bool
  Hostname : String

/-- The two `slog.Infof` lines of `AddMeta`. -/
inductive MetaLog (V : Type) where
  | changed (metric ts name : String) (prev value : V)
  | added (metric ts name : String) (value : V)

/-- What a call of `AddMeta` leaves: the package state, the line logged if any,
and the caller's tag set. -/
structure MetaResult (V : Type) where
  state : MetaState V
  log : Option (MetaLog V)
  tags : TagSet

/-- The Go function `AddMeta`. -/
def AddMeta {V : Type} (env : MetaEnv V) (s : MetaState V) (metric : String) (tags : TagSet)
    (name : String) (value : V) (setHost : Bool) : MetaResult V :=
  let l0 := tags.getD []
  let l := if setHost && !(mapGet "host" l0).isSome then mapPut "host" s.Hostname l0 else l0
  let ts := env.tagsString l
  let key : Metakey := { Metric := metric, Tags := ts, Name := name }
  let log : Option (MetaLog V) :=
    match mapGet key s.metadata with
    | some prev =>
      if !env.DeepEqual prev value then some (MetaLog.changed metric ts name prev value)
      else if s.metadebug then some (MetaLog.added metric ts name value)
      else none
    | none => if s.metadebug then some (MetaLog.added metric ts name value) else none
  { state := { s with metadata := mapPut key value s.metadata },
    log := log,
    tags := Collect.callerTags tags l }

/-- The tag set `AddMeta` works on: `l` itself, or `l` with the entry `host = h` added
when `setHost` is set and `l` has no `host` key. -/
def metaTags (h : String) (setHost : Bool) (l : Tags) : Tags :=
  if setHost && !(mapGet "host" l).isSome then mapPut "host" h l else l

/-- The key under which `AddMeta` stores the value. -/
def metaKey {V : Type} (env : MetaEnv V) (s : MetaState V) (metric : String) (tags : TagSet)
    (name : String) (setHost : Bool) : Metakey :=
  { Metric := metric, Tags := env.tagsString (metaTags s.Hostname setHost (tags.getD [])),
    Name := name }

/-- Whether the call logged the line `metadata changed for ...`. -/
def loggedChange {V : Type} (r : MetaResult V) : Bool :=
  match r.log with
  | some (MetaLog.changed _ _ _ _ _) => true
  | _ => false

/-- A concrete environment: the values are strings, deeply equal when equal. -/
def sampleMetaEnv : MetaEnv String :=
  { tagsString := Collect.tagsStringModel, DeepEqual := fun a b => a == b }

/-- The package state before any call, on a host named `web01`. -/
def sampleMetaState : MetaState String :=
  { metadata := [], metadebug := false, Hostname := "web01" }

end Metadata

/-! # Theorems -/

namespace Collect

/-! ## Machine integers -/

theorem wrap64_isInt64 (x : Int) : isInt64 (wrap64 x) := by
  unfold isInt64 wrap64
  constructor <;> omega

theorem wrap64_of_isInt64 {x : Int} (h : isInt64 x) : wrap64 x = x := by
  unfold isInt64 at h
  unfold wrap64
  omega

theorem wrap64_add_left (a b : Int) : wrap64 (wrap64 a + b) = wrap64 (a + b) := by
  unfold wrap64
  omega

/-! ## Go maps -/

section maps

variable {κ α : Type} [DecidableEq κ]

theorem mapGet_mapPut_self (k : κ) (v : α) (m : List (κ × α)) :
    mapGet k (mapPut k v m) = some v := by
  induction m with
  | nil => simp [mapPut, mapGet]
  | cons e r ih =>
    obtain ⟨k', v'⟩ := e
    by_cases h : k' = k
    · simp [mapPut, mapGet, h]
    · simp [mapPut, mapGet, h, ih]

theorem mapGet_mapPut_ne {k k' : κ} (h : k' ≠ k) (v : α) (m : List (κ × α)) :
    mapGet k' (mapPut k v m) = mapGet k' m := by
  induction m with
  | nil => simp [mapPut, mapGet, Ne.symm h]
  | cons e r ih =>
    obtain ⟨k0, v0⟩ := e
    by_cases h0 : k0 = k
    · subst h0
      simp [mapPut, mapGet, Ne.symm h]
    · by_cases h1 : k0 = k'
      · subst h1
        simp [mapPut, mapGet, h0]
      · simp [mapPut, mapGet, h0, h1, ih]

theorem mapGet_eq_none_iff (k : κ) (m : List (κ × α)) :
    mapGet k m = none ↔ k ∉ keys m := by
  induction m with
  | nil => simp [mapGet, keys]
  | cons e r ih =>
    obtain ⟨k0, v0⟩ := e
    by_cases h0 : k0 = k
    · simp [mapGet, keys, h0]
    · have ih2 : mapGet k r = none ↔ k ∉ List.map Prod.fst r := ih
      simp [mapGet, keys, h0, ih2, Ne.symm h0]

theorem mem_of_mapGet {k : κ} {v : α} {m : List (κ × α)} (h : mapGet k m = some v) :
    (k, v) ∈ m := by
  induction m with
  | nil => simp [mapGet] at h
  | cons e r ih =>
    obtain ⟨k0, v0⟩ := e
    by_cases h0 : k0 = k
    · simp [mapGet, h0] at h
      simp [h0, h]
    · simp [mapGet, h0] at h
      exact List.mem_cons_of_mem _ (ih h)

theorem mem_mapPut {k : κ} {v : α} {m : List (κ × α)} {e : κ × α} (h : e ∈ mapPut k v m) :
    e = (k, v) ∨ e ∈ m := by
  induction m with
  | nil => simpa [mapPut] using h
  | cons e0 r ih =>
    obtain ⟨k0, v0⟩ := e0
    by_cases h0 : k0 = k
    · simp [mapPut, h0] at h
      rcases h with h | h
      · exact Or.inl h
      · exact Or.inr (List.mem_cons_of_mem _ h)
    · simp [mapPut, h0] at h
      rcases h with h | h
      · exact Or.inr (by simp [h])
      · rcases ih h with h | h
        · exact Or.inl h
        · exact Or.inr (List.mem_cons_of_mem _ h)

theorem mapPut_of_mapGet_none {k : κ} (v : α) {m : List (κ × α)} (h : mapGet k m = none) :
    mapPut k v m = m ++ [(k, v)] := by
  induction m with
  | nil => simp [mapPut]
  | cons e r ih =>
    obtain ⟨k0, v0⟩ := e
    by_cases h0 : k0 = k
    · simp [mapGet, h0] at h
    · simp [mapGet, h0] at h
      simp [mapPut, h0, ih h]

/-- After a write, the map splits around the one entry of the key written. -/
theorem mapPut_split (k : κ) (v : α) {m : List (κ × α)} (hm : (keys m).Nodup) :
    ∃ pre post, mapPut k v m = pre ++ (k, v) :: post ∧ k ∉ keys pre ∧ k ∉ keys post ∧
      (keys (mapPut k v m)).Nodup := by
  induction m with
  | nil => exact ⟨[], [], by simp [mapPut, keys]⟩
  | cons e r ih =>
    obtain ⟨k0, v0⟩ := e
    have hr : (keys r).Nodup := by
      simp only [keys, List.map_cons, List.nodup_cons] at hm
      exact hm.2
    have hk0 : k0 ∉ keys r := by
      simp only [keys, List.map_cons, List.nodup_cons] at hm
      exact hm.1
    by_cases h0 : k0 = k
    · subst h0
      refine ⟨[], r, by simp [mapPut], by simp [keys], hk0, ?_⟩
      simpa [mapPut, keys] using hm
    · obtain ⟨pre, post, he, h1, h2, h3⟩ := ih hr
      refine ⟨(k0, v0) :: pre, post, by simp [mapPut, h0, he], ?_, h2, ?_⟩
      · simp only [keys, List.map_cons, List.mem_cons, not_or]
        exact ⟨Ne.symm h0, h1⟩
      · have hmem : k0 ∉ keys (mapPut k v r) := by
          intro hin
          simp only [keys, List.mem_map] at hin
          obtain ⟨e, he1, he2⟩ := hin
          rcases mem_mapPut he1 with h | h
          · subst h
            exact h0 he2.symm
          · exact hk0 (by simp only [keys, List.mem_map]; exact ⟨e, h, he2⟩)
        simp only [mapPut, h0, if_false, keys, List.map_cons, List.nodup_cons]
        exact ⟨hmem, h3⟩

theorem mapGet_split {k : κ} {v : α} {pre post : List (κ × α)} (h : k ∉ keys pre) :
    mapGet k (pre ++ (k, v) :: post) = some v := by
  induction pre with
  | nil => simp [mapGet]
  | cons e r ih =>
    obtain ⟨k0, v0⟩ := e
    simp only [keys, List.map_cons, List.mem_cons, not_or] at h
    have h0 : ¬ k0 = k := fun hx => h.1 hx.symm
    simp only [List.cons_append, mapGet, h0, if_false]
    exact ih h.2

end maps

/-! ## Validation -/

section validation

variable {W : Type}

theorem checkClean_eq_none_iff (env : Env W) (x t : String) :
    checkClean env x t = none ↔ isClean env x := by
  unfold checkClean isClean
  by_cases h1 : (env.Clean x).1 = x
  · cases h2 : (env.Clean x).2 <;> simp [h1]
  · cases h2 : (env.Clean x).2 <;> simp [h1]

theorem checkTags_eq_none_iff (env : Env W) (l : Tags) :
    checkTags env l = none ↔ validTags env l := by
  induction l with
  | nil => simp [checkTags, validTags]
  | cons e r ih =>
    obtain ⟨k, v⟩ := e
    have hk := checkClean_eq_none_iff env k "tagk"
    have hv := checkClean_eq_none_iff env v "tagv"
    unfold validTags at ih ⊢
    simp only [checkTags, List.mem_cons, forall_eq_or_imp]
    cases h1 : checkClean env k "tagk" with
    | some e1 =>
      have : ¬ isClean env k := fun hc => by simp [hk.2 hc] at h1
      simp [this]
    | none =>
      cases h2 : checkClean env v "tagv" with
      | some e2 =>
        have : ¬ isClean env v := fun hc => by simp [hv.2 hc] at h2
        simp [this]
      | none => simp [hk.1 h1, hv.1 h2, ih]

theorem check_eq_ok (env : Env W) (s : State W) (metric : String) (ts : TagSet)
    (hinit : s.tchan ≠ none) (hm : isClean env metric) (hts : validTags env (ts.getD [])) :
    check env s metric ts = Except.ok (hostTags s.osHostname (ts.getD [])) := by
  unfold check hostTags
  rw [if_neg hinit, (checkClean_eq_none_iff env metric "metric").2 hm,
    (checkTags_eq_none_iff env _).2 hts]
  simp only
  split <;> rfl

theorem check_error_of_nil (env : Env W) (s : State W) (metric : String) (ts : TagSet)
    (h : s.tchan = none) : check env s metric ts = Except.error Error.notInit := by
  unfold check
  rw [if_pos h]

theorem check_error_of_invalid (env : Env W) (s : State W) (metric : String) (ts : TagSet)
    (h : ¬ isClean env metric ∨ ¬ validTags env (ts.getD [])) :
    ∃ e, check env s metric ts = Except.error e := by
  unfold check
  by_cases h0 : s.tchan = none
  · exact ⟨_, if_pos h0⟩
  · rw [if_neg h0]
    cases h1 : checkClean env metric "metric" with
    | some e => exact ⟨e, rfl⟩
    | none =>
      have hm := (checkClean_eq_none_iff env metric "metric").1 h1
      cases h2 : checkTags env (ts.getD []) with
      | some e => exact ⟨e, rfl⟩
      | none =>
        have ht := (checkTags_eq_none_iff env _).1 h2
        rcases h with h | h
        · exact absurd hm h
        · exact absurd ht h

theorem hostTags_idem (h : String) (l : Tags) : hostTags h (hostTags h l) = hostTags h l := by
  unfold hostTags
  by_cases h1 : (mapGet "host" l).isSome
  · simp [h1]
  · simp [h1, mapGet_mapPut_self]

theorem mapGet_hostTags (h : String) (l : Tags) (k : String) :
    mapGet k (hostTags h l) =
      if k = "host" then (match mapGet "host" l with | some v => some v | none => some h)
      else mapGet k l := by
  unfold hostTags
  by_cases hk : k = "host"
  · subst hk
    cases hg : mapGet "host" l with
    | some v => simp [hg]
    | none => simp [hg, mapGet_mapPut_self]
  · by_cases h1 : (mapGet "host" l).isSome
    · simp [h1, hk]
    · simp [h1, hk, mapGet_mapPut_ne hk]

theorem Add_of_check_error (env : Env W) (s : State W) (metric : String) (inc : Int) (ts : TagSet)
    {e : Error} (h : check env s metric ts = Except.error e) :
    Add env s metric inc ts = { err := some e, state := s, ts := ts } := by
  unfold Add
  rw [h]

theorem Set_of_check_error (env : Env W) (s : State W) (metric : String) (ts : TagSet)
    (f : Callback W) {e : Error} (h : check env s metric ts = Except.error e) :
    Set env s metric ts f = { err := some e, state := s, ts := ts } := by
  unfold Set
  rw [h]

theorem Add_of_check_ok (env : Env W) (s : State W) (metric : String) (inc : Int) (ts : TagSet)
    {l : Tags} (h : check env s metric ts = Except.ok l) :
    Add env s metric inc ts =
      CallResult.mk none
        { s with
          counters := mapPut (metric ++ env.tagString l)
                        (addMetric.mk (counterAt metric l (metric ++ env.tagString l) s.counters).metric
                          (counterAt metric l (metric ++ env.tagString l) s.counters).ts
                          (wrap64 ((counterAt metric l (metric ++ env.tagString l) s.counters).value
                            + inc)))
                        s.counters }
        (callerTags ts l) := by
  unfold Add counterAt
  rw [h]
  dsimp only
  cases mapGet (metric ++ env.tagString l) s.counters <;> rfl

theorem Set_of_check_ok (env : Env W) (s : State W) (metric : String) (ts : TagSet)
    (f : Callback W) {l : Tags} (h : check env s metric ts = Except.ok l) :
    Set env s metric ts f =
      CallResult.mk none
        { s with
          sets := mapPut (metric ++ env.tagString l) (setMetric.mk metric (some l) f) s.sets }
        (callerTags ts l) := by
  unfold Set
  rw [h]

end validation

/-- C2. Validation rejection is atomic: when the metric name, a tag key or a tag value
fails validation, `Add` and `Set` return an error and leave the package state as it
was (no counter or gauge entry is created or altered, nothing is sent on the ingestion
channel or appended to the queue) and the caller's tag set as it was (no host tag is
injected). -/
theorem C2_validation_rejection_atomic {W : Type} (env : Env W) (s : State W) (metric : String)
    (inc : Int) (ts : TagSet) (f : Callback W)
    (h : ¬ isClean env metric ∨ ∃ kv ∈ ts.getD [], ¬ isClean env kv.1 ∨ ¬ isClean env kv.2) :
    ((Add env s metric inc ts).err ≠ none ∧ (Add env s metric inc ts).state = s ∧
        (Add env s metric inc ts).ts = ts) ∧
      ((Set env s metric ts f).err ≠ none ∧ (Set env s metric ts f).state = s ∧
        (Set env s metric ts f).ts = ts) := by
  have h2 : ¬ isClean env metric ∨ ¬ validTags env (ts.getD []) := by
    rcases h with h | ⟨kv, hkv, hbad⟩
    · exact Or.inl h
    · refine Or.inr (fun hv => ?_)
      have := hv kv hkv
      rcases hbad with hb | hb
      · exact hb this.1
      · exact hb this.2
  obtain ⟨e, he⟩ := check_error_of_invalid env s metric ts h2
  rw [Add_of_check_error env s metric inc ts he, Set_of_check_error env s metric ts f he]
  simp

/-- C2, at a concrete input: `Add("bad metric!", 1, nil)` and the like-named `Set` on the
initialised sample pipeline. -/
theorem C2_validation_rejection_atomic_witness :
    ((Add sampleEnv sampleState "bad metric!" 1 none).err ≠ none ∧
        (Add sampleEnv sampleState "bad metric!" 1 none).state = sampleState ∧
        (Add sampleEnv sampleState "bad metric!" 1 none).ts = none) ∧
      ((Set sampleEnv sampleState "bad metric!" none droppedGauge).err ≠ none ∧
        (Set sampleEnv sampleState "bad metric!" none droppedGauge).state = sampleState ∧
        (Set sampleEnv sampleState "bad metric!" none droppedGauge).ts = none) :=
  C2_validation_rejection_atomic sampleEnv sampleState "bad metric!" 1 none droppedGauge
    (Or.inl (by decide))

/-- C3. `Add` and `Set` fail exactly on the documented conditions: each returns an error
if and only if the pipeline is not initialised (`tchan` is nil, which is the case exactly
as long as no `Init` has succeeded) or `Clean` alters or rejects the metric name, a tag
key or a tag value (a supplied `host` value included); otherwise it returns no error. -/
theorem C3_add_set_fail_exactly {W : Type} (env : Env W) (s : State W) (metric : String)
    (inc : Int) (ts : TagSet) (f : Callback W) :
    ((Add env s metric inc ts).err ≠ none ↔
        (s.tchan = none ∨
          ((env.Clean metric).1 ≠ metric ∨ (env.Clean metric).2 ≠ none) ∨
          ∃ kv ∈ ts.getD [],
            ((env.Clean kv.1).1 ≠ kv.1 ∨ (env.Clean kv.1).2 ≠ none) ∨
            ((env.Clean kv.2).1 ≠ kv.2 ∨ (env.Clean kv.2).2 ≠ none))) ∧
      ((Set env s metric ts f).err ≠ none ↔ (Add env s metric inc ts).err ≠ none) := by
  by_cases hinit : s.tchan = none
  · have he := check_error_of_nil env s metric ts hinit
    rw [Add_of_check_error env s metric inc ts he, Set_of_check_error env s metric ts f he]
    simp [hinit]
  · by_cases hm : isClean env metric
    · by_cases hts : validTags env (ts.getD [])
      · have hok := check_eq_ok env s metric ts hinit hm hts
        rw [Add_of_check_ok env s metric inc ts hok, Set_of_check_ok env s metric ts f hok]
        simp only [ne_eq, not_true_eq_false, false_iff, iff_self, and_true, not_or, not_exists,
          not_and]
        refine ⟨hinit, ?_, ?_⟩
        · unfold isClean at hm
          simp [hm.1, hm.2]
        · intro kv hkv
          have := hts kv hkv
          unfold isClean at this
          simp [this.1.1, this.1.2, this.2.1, this.2.2]
      · obtain ⟨e, he⟩ := check_error_of_invalid env s metric ts (Or.inr hts)
        rw [Add_of_check_error env s metric inc ts he, Set_of_check_error env s metric ts f he]
        simp only [ne_eq, reduceCtorEq, not_false_eq_true, true_iff, iff_self, and_true]
        right; right
        unfold validTags at hts
        push_neg at hts
        obtain ⟨kv, hkv, hbad⟩ := hts
        refine ⟨kv, hkv, ?_⟩
        unfold isClean at hbad
        by_cases hk : (env.Clean kv.1).1 = kv.1 ∧ (env.Clean kv.1).2 = none
        · right
          by_cases h1 : (env.Clean kv.2).1 = kv.2
          · exact Or.inr (fun h2 => hbad hk ⟨h1, h2⟩)
          · exact Or.inl h1
        · left
          by_cases h1 : (env.Clean kv.1).1 = kv.1
          · exact Or.inr (fun h2 => hk ⟨h1, h2⟩)
          · exact Or.inl h1
    · obtain ⟨e, he⟩ := check_error_of_invalid env s metric ts (Or.inl hm)
      rw [Add_of_check_error env s metric inc ts he, Set_of_check_error env s metric ts f he]
      simp only [ne_eq, reduceCtorEq, not_false_eq_true, true_iff, iff_self, and_true]
      right; left
      unfold isClean at hm
      by_cases h1 : (env.Clean metric).1 = metric
      · exact Or.inr (fun h2 => hm ⟨h1, h2⟩)
      · exact Or.inl h1

/-! ## The snapshot pass -/

section snapshot

variable {W : Type}

theorem chanSend_eq (s : State W) (dp : DataPoint) {c : List DataPoint} (h : s.tchan = some c) :
    chanSend s dp = some { s with tchan := some (c ++ [dp]) } := by
  unfold chanSend
  rw [h]

theorem collectCounters_eq (now : Int) (cs : List (String × addMetric)) :
    ∀ (s : State W) (c : List DataPoint), s.tchan = some c →
      collectCounters now cs s =
        some { s with tchan := some (c ++ counterPoints s.metricRoot now cs) } := by
  induction cs with
  | nil =>
    intro s c h
    simp [collectCounters, counterPoints, ← h]
  | cons e r ih =>
    intro s c h
    obtain ⟨k, a⟩ := e
    simp only [collectCounters]
    rw [chanSend_eq s _ h]
    simp only
    rw [ih _ (c ++ [_]) rfl]
    simp [counterPoints, counterPoint]

theorem collectSets_eq (now : Int) (gs : List (String × setMetric W)) :
    ∀ (s : State W) (c : List DataPoint), s.tchan = some c →
      collectSets now gs s =
        some { s with
          tchan := some (c ++ gaugePoints s.metricRoot now s.dropped s.sent gs s.world),
          world := worldAfter s.dropped s.sent gs s.world } := by
  induction gs with
  | nil =>
    intro s c h
    simp [collectSets, gaugePoints, worldAfter, ← h]
  | cons e r ih =>
    intro s c h
    obtain ⟨k, g⟩ := e
    simp only [collectSets]
    rw [chanSend_eq _ _ (c := c) (by simpa using h)]
    simp only
    rw [ih _ (c ++ [_]) rfl]
    simp [gaugePoints, worldAfter]

/-- One `collect` pass in closed form: it returns, and all it changes is the channel,
which receives one point per counter and then one per gauge, and the world, as left
by the callbacks. -/
theorem collect_eq (s : State W) (now : Int) {c : List DataPoint} (h : s.tchan = some c) :
    collect s now =
      some { s with
        tchan := some (c ++ (counterPoints s.metricRoot now s.counters ++
          gaugePoints s.metricRoot now s.dropped s.sent s.sets s.world)),
        world := worldAfter s.dropped s.sent s.sets s.world } := by
  unfold collect
  rw [collectCounters_eq now s.counters s c h]
  simp only
  rw [collectSets_eq now s.sets _ (c ++ counterPoints s.metricRoot now s.counters) rfl]
  simp [List.append_assoc]

theorem counterPoints_split (root : String) (now : Int) (pre post : List (String × addMetric))
    (k : String) (e : addMetric) :
    counterPoints root now (pre ++ (k, e) :: post) =
      counterPoints root now pre ++ counterPoint root now e :: counterPoints root now post := by
  simp [counterPoints]

theorem gaugePoints_split (root : String) (now dropped sent : Int)
    (pre post : List (String × setMetric W)) (k : String) (g : setMetric W) :
    ∀ w : W, gaugePoints root now dropped sent (pre ++ (k, g) :: post) w =
      gaugePoints root now dropped sent pre w ++
        { Metric := root ++ g.metric, Timestamp := now,
          Value := (g.f { dropped := dropped, sent := sent,
                          world := worldAfter dropped sent pre w }).1,
          Tags := g.ts } ::
        gaugePoints root now dropped sent post
          (g.f { dropped := dropped, sent := sent, world := worldAfter dropped sent pre w }).2 := by
  induction pre with
  | nil => intro w; simp [gaugePoints, worldAfter]
  | cons e r ih =>
    intro w
    obtain ⟨k0, g0⟩ := e
    simp [gaugePoints, worldAfter, ih]

end snapshot

/-! ## Sequences of `Add` -/

section counters

variable {W : Type}

theorem mapPut_mapPut {κ α : Type} [DecidableEq κ] (k : κ) (v1 v2 : α) (m : List (κ × α)) :
    mapPut k v2 (mapPut k v1 m) = mapPut k v2 m := by
  induction m with
  | nil => simp [mapPut]
  | cons e r ih =>
    obtain ⟨k0, v0⟩ := e
    by_cases h0 : k0 = k
    · simp [mapPut, h0]
    · simp [mapPut, h0, ih]

theorem validTags_hostTags (env : Env W) {h : String} {l : Tags} (hhost : isClean env "host")
    (hh : isClean env h) (hl : validTags env l) : validTags env (hostTags h l) := by
  unfold hostTags
  split
  · exact hl
  · intro kv hkv
    rcases mem_mapPut hkv with hk | hk
    · subst hk
      exact ⟨hhost, hh⟩
    · exact hl kv hk

theorem hostTags_callerTags (h : String) (ts : TagSet) :
    hostTags h ((callerTags ts (hostTags h (ts.getD []))).getD []) = hostTags h (ts.getD []) := by
  cases ts with
  | none => rfl
  | some l0 => simp [callerTags, hostTags_idem]

theorem validTags_callerTags (env : Env W) {h : String} {ts : TagSet} (hhost : isClean env "host")
    (hh : isClean env h) (hl : validTags env (ts.getD [])) :
    validTags env ((callerTags ts (hostTags h (ts.getD []))).getD []) := by
  cases ts with
  | none => exact hl
  | some l0 => exact validTags_hostTags env hhost hh hl

/-- A call of `Add` that passes validation, in closed form. -/
theorem Add_valid (env : Env W) (s : State W) (m : String) (inc : Int) (ts : TagSet)
    (hinit : s.tchan ≠ none) (hm : isClean env m) (hts : validTags env (ts.getD [])) :
    Add env s m inc ts =
      CallResult.mk none
        { s with
          counters :=
            mapPut (m ++ env.tagString (hostTags s.osHostname (ts.getD [])))
              (addMetric.mk
                (counterAt m (hostTags s.osHostname (ts.getD []))
                  (m ++ env.tagString (hostTags s.osHostname (ts.getD []))) s.counters).metric
                (counterAt m (hostTags s.osHostname (ts.getD []))
                  (m ++ env.tagString (hostTags s.osHostname (ts.getD []))) s.counters).ts
                (wrap64 ((counterAt m (hostTags s.osHostname (ts.getD []))
                  (m ++ env.tagString (hostTags s.osHostname (ts.getD []))) s.counters).value + inc)))
              s.counters }
        (callerTags ts (hostTags s.osHostname (ts.getD []))) :=
  Add_of_check_ok env s m inc ts (check_eq_ok env s m ts hinit hm hts)

end counters

section counters2

variable {W : Type}

/-- A `collect` pass on a registry in which `key` has exactly one counter: the pass
returns, leaves the counters as they are, and sends one point per counter, the one
of `key` in its place. -/
theorem collect_of_split (s : State W) (now : Int) {c : List DataPoint}
    {pre post : List (String × addMetric)} {key : String} {e : addMetric}
    (h : s.tchan = some c) (hsplit : s.counters = pre ++ (key, e) :: post) :
    ∃ s2, collect s now = some s2 ∧ s2.counters = s.counters ∧ s2.sets = s.sets ∧
      s2.osHostname = s.osHostname ∧ s2.metricRoot = s.metricRoot ∧
      s2.dropped = s.dropped ∧ s2.sent = s.sent ∧
      s2.world = worldAfter s.dropped s.sent s.sets s.world ∧
      s2.tchan = some (c ++ (counterPoints s.metricRoot now pre ++
        counterPoint s.metricRoot now e :: counterPoints s.metricRoot now post ++
        gaugePoints s.metricRoot now s.dropped s.sent s.sets s.world)) := by
  refine ⟨_, collect_eq s now h, rfl, rfl, rfl, rfl, rfl, rfl, rfl, ?_⟩
  simp [hsplit, counterPoints_split]

end counters2

section consumer

variable {W : Type}

/-- The consumer in closed form, from a buffer holding `q` points: the buffer is filled
up to length `MaxQueueLen + 1`, and only the points that arrive after that are dropped. -/
theorem ingestAll_eq (pts : List DataPoint) :
    ∀ (s : State W), 0 ≤ s.MaxQueueLen → (s.queue.length : Int) ≤ s.MaxQueueLen + 1 →
      isInt64 s.dropped →
      ingestAll s pts =
        { s with
          queue := s.queue ++ pts.take (s.MaxQueueLen.toNat + 1 - s.queue.length),
          dropped := wrap64 (s.dropped +
            (pts.length - (s.MaxQueueLen.toNat + 1 - s.queue.length) : Nat)) } := by
  induction pts with
  | nil =>
    intro s _ _ hd
    simp [ingestAll, wrap64_of_isInt64 hd]
  | cons dp r ih =>
    intro s hN hq hd
    have hstep : ingestAll s (dp :: r) = ingestAll (ingest s dp) r := rfl
    rw [hstep]
    by_cases hfull : (s.queue.length : Int) > s.MaxQueueLen
    · have hi : ingest s dp = { s with dropped := wrap64 (s.dropped + 1) } := by
        unfold ingest
        rw [if_pos hfull]
      rw [hi, ih { s with dropped := wrap64 (s.dropped + 1) } hN hq (wrap64_isInt64 _)]
      have h0 : s.MaxQueueLen.toNat + 1 - s.queue.length = 0 := by omega
      simp only [h0, List.take_zero, List.append_nil, Nat.sub_zero, List.length_cons,
        wrap64_add_left]
      congr 2
      push_cast
      ring
    · have hi : ingest s dp = { s with queue := s.queue ++ [dp] } := by
        unfold ingest
        rw [if_neg hfull]
      have hq2 : ((s.queue ++ [dp]).length : Int) ≤ s.MaxQueueLen + 1 := by
        simp only [List.length_append, List.length_singleton]
        push_cast
        omega
      rw [hi, ih { s with queue := s.queue ++ [dp] } hN hq2 hd]
      have h1 : s.MaxQueueLen.toNat + 1 - s.queue.length =
          (s.MaxQueueLen.toNat + 1 - (s.queue ++ [dp]).length) + 1 := by
        simp only [List.length_append, List.length_singleton]
        omega
      rw [h1]
      simp only [List.take_succ_cons, List.append_assoc, List.singleton_append,
        List.length_cons, Nat.add_sub_add_right]

end consumer

/-- C5, the code at a failing input: with `MaxQueueLen = 2`, an empty buffer and a
dropped count of 0, the consumer receives 2 + 3 points. It ends with 3 points in the
buffer, one more than the maximum, and a dropped count of 2, one fewer than 3. -/
theorem C5_backpressure_off_by_one :
    (ingestAll { State.initial (0 : Nat) with MaxQueueLen := 2 }
        (List.replicate 5 (DataPoint.mk "app.m" 100 1 none))).queue.length = 3 ∧
      (ingestAll { State.initial (0 : Nat) with MaxQueueLen := 2 }
        (List.replicate 5 (DataPoint.mk "app.m" 100 1 none))).dropped = 2 := by
  decide

/-! ## The sender -/

section sender

variable {W : Type}

/-- The failure branch of `sendBatch` in closed form: with a channel to send on it
returns, having sent the points at or after the cutoff, in order, and counted the rest. -/
theorem requeue_eq (t : Int) (batch : List DataPoint) :
    ∀ (s : State W) (c : List DataPoint) (old restored : Nat), s.tchan = some c →
      requeue t batch s old restored =
        some { state := { s with tchan := some (c ++ batch.filter (fun dp => t ≤ dp.Timestamp)) },
               old := old + (batch.filter (fun dp => dp.Timestamp < t)).length,
               restored := restored + (batch.filter (fun dp => t ≤ dp.Timestamp)).length } := by
  induction batch with
  | nil =>
    intro s c old restored h
    simp [requeue, ← h]
  | cons dp r ih =>
    intro s c old restored h
    by_cases hlt : dp.Timestamp < t
    · have hge : ¬ t ≤ dp.Timestamp := by omega
      simp only [requeue, if_pos hlt]
      rw [ih s c (old + 1) restored h]
      simp [hlt, hge, Nat.add_assoc, Nat.add_comm 1]
    · have hge : t ≤ dp.Timestamp := by omega
      simp only [requeue, if_neg hlt]
      rw [chanSend_eq s dp h]
      simp only
      rw [ih _ (c ++ [dp]) old (restored + 1) rfl]
      simp [hlt, hge, Nat.add_assoc, Nat.add_comm 1]

theorem filter_lt_add_filter_ge (t : Int) (batch : List DataPoint) :
    (batch.filter (fun dp => dp.Timestamp < t)).length +
      (batch.filter (fun dp => t ≤ dp.Timestamp)).length = batch.length := by
  induction batch with
  | nil => simp
  | cons dp r ih =>
    by_cases hlt : dp.Timestamp < t
    · have hge : ¬ t ≤ dp.Timestamp := by omega
      simp [hlt, hge]
      omega
    · have hge : t ≤ dp.Timestamp := by omega
      simp [hlt, hge]
      omega

end sender

/-- C6. Age-bounded retry. When `sendBatch` fails to deliver a batch (a transport error
or a status other than 204) at time `now`, with cutoff `t = now - 1800` seconds, the
points it sends back on the ingestion channel are exactly the points of the batch with
`Timestamp >= t`, in batch order and each once, so none with `Timestamp < t`; the old
count and the restored count add up to the batch length; and `sent` is unchanged. -/
theorem C6_age_bounded_retry {W : Type} (s : State W) (batch : List DataPoint) (o : Outcome)
    (now : Int) (c : List DataPoint)
    (hprint : s.Print = false)
    (ho : o = Outcome.transportError ∨ ∃ code, o = Outcome.status code ∧ code ≠ 204)
    (hinit : s.tchan = some c) :
    ∃ r, sendBatch s batch o now = some r ∧
      r.state = { s with tchan := some (c ++ batch.filter (fun dp => now - 1800 ≤ dp.Timestamp)) } ∧
      r.restored = (batch.filter (fun dp => now - 1800 ≤ dp.Timestamp)).length ∧
      r.old = (batch.filter (fun dp => dp.Timestamp < now - 1800)).length ∧
      r.old + r.restored = batch.length ∧
      r.state.sent = s.sent := by
  have hreq := requeue_eq (now - 1800) batch s c 0 0 hinit
  have hsb : sendBatch s batch o now = requeue (now - 1800) batch s 0 0 := by
    unfold sendBatch
    rcases ho with ho | ⟨code, ho, hcode⟩
    · simp [hprint, ho]
    · simp [hprint, ho, hcode]
  rw [hsb, hreq]
  refine ⟨_, rfl, rfl, by simp, by simp, ?_, rfl⟩
  simpa using filter_lt_add_filter_ge (now - 1800) batch

/-- C6, at a concrete input: a batch of a stale point (timestamp 100) and a recent one
(timestamp 5000), refused with status 500 at time 6000, so that the cutoff is 4200. -/
theorem C6_age_bounded_retry_witness :
    ∃ r, sendBatch sampleState
        [DataPoint.mk "app.m" 100 1 none, DataPoint.mk "app.m" 5000 2 none]
        (Outcome.status 500) 6000 = some r ∧
      r.state = { sampleState with tchan := some ([] ++
        [DataPoint.mk "app.m" 100 1 none, DataPoint.mk "app.m" 5000 2 none].filter
          (fun dp => 6000 - 1800 ≤ dp.Timestamp)) } ∧
      r.restored = ([DataPoint.mk "app.m" 100 1 none, DataPoint.mk "app.m" 5000 2 none].filter
          (fun dp => 6000 - 1800 ≤ dp.Timestamp)).length ∧
      r.old = ([DataPoint.mk "app.m" 100 1 none, DataPoint.mk "app.m" 5000 2 none].filter
          (fun dp => dp.Timestamp < 6000 - 1800)).length ∧
      r.old + r.restored = [DataPoint.mk "app.m" 100 1 none, DataPoint.mk "app.m" 5000 2 none].length ∧
      r.state.sent = sampleState.sent :=
  C6_age_bounded_retry sampleState
    [DataPoint.mk "app.m" 100 1 none, DataPoint.mk "app.m" 5000 2 none]
    (Outcome.status 500) 6000 [] (by decide) (Or.inr ⟨500, rfl, by decide⟩) (by decide)

section sender2

variable {W : Type}

/-- The consumer from an empty buffer and a dropped count of 0, with `MaxQueueLen = N`,
on `N + K` points with `K >= 1`: the buffer ends one point above `N` and the dropped
count is `K - 1`. -/
theorem ingestAll_overflow (s : State W) (pts : List DataPoint) (N K : Nat)
    (hN : s.MaxQueueLen = N) (hq : s.queue = []) (hd : s.dropped = 0)
    (hlen : pts.length = N + K) (hK : 1 ≤ K) :
    (ingestAll s pts).queue.length = N + 1 ∧
      (ingestAll s pts).dropped = wrap64 ((K : Int) - 1) := by
  have h := ingestAll_eq pts s (by omega) (by simp [hq, hN]; omega)
    (by rw [hd]; unfold isInt64; omega)
  rw [h]
  simp only [hq, hN, hd, List.length_nil, Nat.sub_zero, Int.toNat_ofNat, List.nil_append,
    List.length_take, hlen, zero_add]
  constructor
  · omega
  · congr 1
    omega

/-- The delivery of a batch that succeeds (local echo, or status 204), in closed form. -/
theorem sendBatch_success (s : State W) (batch : List DataPoint) (o : Outcome) (now : Int)
    (h : s.Print = true ∨ o = Outcome.status 204) :
    sendBatch s batch o now =
      some { state := { s with sent := wrap64 (s.sent + batch.length) }, old := 0, restored := 0 } := by
  unfold sendBatch recordSent
  by_cases hp : s.Print = true
  · simp [hp]
  · rcases h with h | h
    · exact absurd h hp
    · simp [hp, h]

end sender2

/-- C7. Successful delivery accounting. For a non-empty buffer `q` and `BatchSize >= 1`,
one iteration of `send` hands to `sendBatch` the first `B = min(len(q), BatchSize)` points
of `q`, in order, and leaves as the buffer `q` without them. When the delivery succeeds
(local echo, or status 204) the iteration returns with `sent` increased by `B` (the
`int64` sum, which is `sent + B` whenever that is an `int64`), the channel untouched
(nothing is sent back) and nothing else changed. -/
theorem C7_successful_delivery_accounting {W : Type} (s : State W) (o : Outcome) (now : Int)
    (hq : s.queue ≠ []) (hB : 1 ≤ s.BatchSize) :
    send s o now =
        sendBatch { s with queue := s.queue.drop (min s.queue.length s.BatchSize.toNat) }
          (s.queue.take (min s.queue.length s.BatchSize.toNat)) o now ∧
      s.queue.take (min s.queue.length s.BatchSize.toNat) ++
        s.queue.drop (min s.queue.length s.BatchSize.toNat) = s.queue ∧
      (s.queue.take (min s.queue.length s.BatchSize.toNat)).length =
        min s.queue.length s.BatchSize.toNat ∧
      1 ≤ min s.queue.length s.BatchSize.toNat ∧
      ((s.Print = true ∨ o = Outcome.status 204) →
        send s o now =
          some { state := { s with
                   queue := s.queue.drop (min s.queue.length s.BatchSize.toNat),
                   sent := wrap64 (s.sent + (min s.queue.length s.BatchSize.toNat : Nat)) },
                 old := 0, restored := 0 }) ∧
      (isInt64 (s.sent + (min s.queue.length s.BatchSize.toNat : Nat)) →
        wrap64 (s.sent + (min s.queue.length s.BatchSize.toNat : Nat)) =
          s.sent + (min s.queue.length s.BatchSize.toNat : Nat)) := by
  have hlen : 0 < s.queue.length := List.length_pos.mpr hq
  have hi : (if (s.queue.length : Int) > s.BatchSize then s.BatchSize else (s.queue.length : Int)).toNat
      = min s.queue.length s.BatchSize.toNat := by
    split <;> omega
  have hnn : ¬ (if (s.queue.length : Int) > s.BatchSize then s.BatchSize else (s.queue.length : Int)) < 0 := by
    split <;> omega
  have hsend : send s o now =
      sendBatch { s with queue := s.queue.drop (min s.queue.length s.BatchSize.toNat) }
        (s.queue.take (min s.queue.length s.BatchSize.toNat)) o now := by
    unfold send
    have hpos : (s.queue.length : Int) > 0 := by omega
    rw [if_pos hpos]
    simp only
    rw [if_neg hnn, hi]
  have htake : (s.queue.take (min s.queue.length s.BatchSize.toNat)).length =
      min s.queue.length s.BatchSize.toNat := by
    rw [List.length_take]
    omega
  refine ⟨hsend, List.take_append_drop _ _, htake, by omega, ?_, fun h => wrap64_of_isInt64 h⟩
  intro hok
  rw [hsend, sendBatch_success _ _ o now (by simpa using hok), htake]

/-- C7, at a concrete input: a buffer of three points, `BatchSize = 2`, status 204. -/
theorem C7_successful_delivery_accounting_witness :
    send { sampleState with BatchSize := 2, queue := [DataPoint.mk "app.a" 1 1 none,
        DataPoint.mk "app.b" 2 2 none, DataPoint.mk "app.c" 3 3 none] } (Outcome.status 204) 10 =
      some { state := { sampleState with BatchSize := 2, queue := [DataPoint.mk "app.c" 3 3 none],
                                         sent := 2 },
             old := 0, restored := 0 } :=
  ((C7_successful_delivery_accounting
    { sampleState with BatchSize := 2, queue := [DataPoint.mk "app.a" 1 1 none,
        DataPoint.mk "app.b" 2 2 none, DataPoint.mk "app.c" 3 3 none] } (Outcome.status 204) 10
    (by decide) (by decide)).2.2.2.2.1 (Or.inr rfl))

/-! ## Initialisation -/

section init

variable {W : Type}

theorem setHostName_fields (env : Env W) (s : State W) (host : String × Option String) :
    (setHostName env s host).1.tchan = s.tchan ∧
      (setHostName env s host).1.sets = s.sets ∧
      (setHostName env s host).1.counters = s.counters ∧
      (setHostName env s host).1.tsdbURL = s.tsdbURL ∧
      (setHostName env s host).1.metricRoot = s.metricRoot := by
  unfold setHostName
  cases host.2 <;> simp

theorem InitChan_of_init (env : Env W) (s : State W) (h r : String)
    (ch : Option (List DataPoint)) (host : String × Option String) (hs : s.tchan ≠ none) :
    InitChan env s h r ch host = (s, some Error.initTwice) := by
  unfold InitChan
  rw [if_pos hs]

/-- A call of `InitChan` that returns an error on a pipeline that is not initialised:
all it may have changed is `osHostname`. -/
theorem InitChan_error_fields (env : Env W) (s : State W) (h r : String)
    (ch : Option (List DataPoint)) (host : String × Option String)
    (herr : (InitChan env s h r ch host).2 ≠ none) :
    (InitChan env s h r ch host).1.tchan = s.tchan ∧
      (InitChan env s h r ch host).1.sets = s.sets ∧
      (InitChan env s h r ch host).1.counters = s.counters ∧
      (InitChan env s h r ch host).1.tsdbURL = s.tsdbURL ∧
      (InitChan env s h r ch host).1.metricRoot = s.metricRoot := by
  have hf := setHostName_fields env s host
  unfold InitChan at herr ⊢
  by_cases hs : s.tchan ≠ none
  · simp [hs]
  · rw [if_neg hs] at herr ⊢
    rcases hsh : setHostName env s host with ⟨s1, _ | e⟩
    · rw [hsh] at hf herr
      simp only at hf herr ⊢
      cases hc : checkClean env r "metric root" with
      | some e => simpa using hf
      | none =>
        rw [hc] at herr
        by_cases hh : h = ""
        · simpa [hh] using hf
        · simp [hh] at herr
    · rw [hsh] at hf
      simpa using hf

theorem InitChan_error_of_invalid (env : Env W) (s : State W) (h r : String)
    (ch : Option (List DataPoint)) (host : String × Option String)
    (hbad : ¬ isClean env r ∨ h = "") :
    (InitChan env s h r ch host).2 ≠ none := by
  unfold InitChan
  by_cases hs : s.tchan ≠ none
  · simp [hs]
  · rw [if_neg hs]
    rcases hsh : setHostName env s host with ⟨s1, _ | e⟩
    · simp only
      cases hc : checkClean env r "metric root" with
      | some e => simp
      | none =>
        have hr := (checkClean_eq_none_iff env r "metric root").1 hc
        rcases hbad with hbad | hbad
        · exact absurd hr hbad
        · simp [hbad]
    · simp

theorem Set_tchan (env : Env W) (s : State W) (m : String) (ts : TagSet) (f : Callback W) :
    (Set env s m ts f).state.tchan = s.tchan := by
  unfold Set
  cases check env s m ts <;> rfl

theorem Add_tchan (env : Env W) (s : State W) (m : String) (inc : Int) (ts : TagSet) :
    (Add env s m inc ts).state.tchan = s.tchan := by
  unfold Add
  cases check env s m ts <;> rfl

/-- A call of `Init` that returns no error leaves a channel in `tchan`. -/
theorem Init_ok_tchan (env : Env W) (s : State W) (h r : String)
    (host : String × Option String) (hok : (Init env s h r host).2 = none) :
    (Init env s h r host).1.tchan ≠ none := by
  unfold Init InitChan at hok ⊢
  by_cases hs : s.tchan ≠ none
  · simp [hs] at hok
  · rw [if_neg hs] at hok ⊢
    rcases hsh : setHostName env s host with ⟨s1, _ | e⟩
    · rw [hsh] at hok
      simp only at hok ⊢
      cases hc : checkClean env r "metric root" with
      | some e => simp [hc] at hok
      | none =>
        by_cases hh : h = ""
        · simp [hc, hh] at hok
        · simp only [hh, if_false, Set_tchan]
          simp
    · rw [hsh] at hok
      simp at hok

theorem sendBatch_tchan (s : State W) (batch : List DataPoint) (o : Outcome) (now : Int)
    (hs : s.tchan ≠ none) {r : SendResult W} (hr : sendBatch s batch o now = some r) :
    r.state.tchan ≠ none := by
  obtain ⟨c, hc⟩ := Option.ne_none_iff_exists'.mp hs
  have hreq := requeue_eq (now - 1800) batch s c 0 0 hc
  unfold sendBatch at hr
  by_cases hp : s.Print = true
  · simp [hp, recordSent] at hr
    rw [← hr]
    exact hs
  · simp only [hp, if_false] at hr
    cases o with
    | encodeError => simp at hr; rw [← hr]; exact hs
    | closeError => simp at hr; rw [← hr]; exact hs
    | requestError => simp at hr; rw [← hr]; exact hs
    | transportError =>
      simp only at hr
      rw [hreq] at hr
      simp at hr
      rw [← hr]
      simp
    | status code =>
      simp only at hr
      by_cases h204 : code = 204
      · simp [h204, recordSent] at hr
        rw [← hr]
        exact hs
      · simp only [ne_eq, h204, not_false_eq_true, if_true] at hr
        rw [hreq] at hr
        simp at hr
        rw [← hr]
        simp

/-- No operation takes the channel away once `tchan` holds one. -/
theorem step_tchan (env : Env W) (s : State W) (op : Op W) (hs : s.tchan ≠ none) :
    (step env s op).tchan ≠ none := by
  obtain ⟨c, hc⟩ := Option.ne_none_iff_exists'.mp hs
  cases op with
  | init h r host =>
    simp only [step, Init]
    rw [InitChan_of_init env s h r _ host hs]
    exact hs
  | add m inc ts =>
    simp only [step]
    rw [Add_tchan]
    exact hs
  | set m ts f =>
    simp only [step]
    rw [Set_tchan]
    exact hs
  | snapshot now =>
    simp only [step]
    rw [collect_eq s now hc]
    simp
  | receive =>
    simp only [step, consume]
    rw [hc]
    cases c with
    | nil => simp [hc]
    | cons dp rest =>
      simp only [Option.getD_some, ingest]
      split <;> simp
  | deliver o now =>
    simp only [step]
    cases hsend : send s o now with
    | none => exact hs
    | some r =>
      simp only
      unfold send at hsend
      by_cases hq : (s.queue.length : Int) > 0
      · rw [if_pos hq] at hsend
        simp only at hsend
        by_cases hneg : (if (s.queue.length : Int) > s.BatchSize then s.BatchSize
            else (s.queue.length : Int)) < 0
        · rw [if_pos hneg] at hsend
          simp at hsend
        · rw [if_neg hneg] at hsend
          exact sendBatch_tchan _ _ o now (by simpa using hs) hsend
      · rw [if_neg hq] at hsend
        simp at hsend
        rw [← hsend]
        exact hs

theorem run_tchan (env : Env W) (ops : List (Op W)) :
    ∀ s : State W, s.tchan ≠ none → (run env s ops).tchan ≠ none := by
  induction ops with
  | nil => intro s hs; exact hs
  | cons op r ih =>
    intro s hs
    exact ih _ (step_tchan env s op hs)

end init

/-- C9. Initialisation fails as documented. `Init(host, prefix)` returns an error, and
leaves the whole state (sink URL, metric prefix and registry included) as it was, when a
previous `Init` has succeeded, whatever was called in between; it returns an error
whenever the prefix fails validation and whenever the host is empty; and after such a
failure on a pipeline that was not initialised the pipeline is still not initialised: no
gauge or counter has been registered, and a following `Add` or `Set` returns the
not-initialised error. -/
theorem C9_init_fails_as_documented {W : Type} (env : Env W) (s : State W)
    (h r h2 r2 : String) (host host2 : String × Option String) (ops : List (Op W))
    (m : String) (inc : Int) (ts : TagSet) (f : Callback W) :
    ((Init env s h r host).2 = none →
        Init env (run env (Init env s h r host).1 ops) h2 r2 host2 =
          (run env (Init env s h r host).1 ops, some Error.initTwice)) ∧
      (s.tchan ≠ none → Init env s h r host = (s, some Error.initTwice)) ∧
      (¬ isClean env r → (Init env s h r host).2 ≠ none) ∧
      (h = "" → (Init env s h r host).2 ≠ none) ∧
      (s.tchan = none → (¬ isClean env r ∨ h = "") →
        (Init env s h r host).1.tchan = none ∧
        (Init env s h r host).1.sets = s.sets ∧
        (Init env s h r host).1.counters = s.counters ∧
        Add env (Init env s h r host).1 m inc ts =
          CallResult.mk (some Error.notInit) (Init env s h r host).1 ts ∧
        Set env (Init env s h r host).1 m ts f =
          CallResult.mk (some Error.notInit) (Init env s h r host).1 ts) := by
  refine ⟨?_, ?_, ?_, ?_, ?_⟩
  · intro hok
    exact InitChan_of_init env _ h2 r2 _ host2
      (run_tchan env ops _ (Init_ok_tchan env s h r host hok))
  · intro hs
    exact InitChan_of_init env s h r _ host hs
  · intro hr
    exact InitChan_error_of_invalid env s h r _ host (Or.inl hr)
  · intro hh
    exact InitChan_error_of_invalid env s h r _ host (Or.inr hh)
  · intro hs hbad
    have herr := InitChan_error_of_invalid env s h r (some []) host hbad
    obtain ⟨f1, f2, f3, _, _⟩ := InitChan_error_fields env s h r (some []) host herr
    have hnil : (Init env s h r host).1.tchan = none := f1.trans hs
    refine ⟨hnil, f2, f3, ?_, ?_⟩
    · exact Add_of_check_error env _ m inc ts (check_error_of_nil env _ m ts hnil)
    · exact Set_of_check_error env _ m ts f (check_error_of_nil env _ m ts hnil)

/-- C9, at concrete inputs: on the pipeline before any call, `Init` with the prefix
`bad prefix!` and `Init` with an empty host fail and a following `Add` returns the
not-initialised error; on the initialised sample pipeline a second `Init` is refused. -/
theorem C9_init_fails_as_documented_witness :
    (Init sampleEnv (State.initial 0) "tsdb" "bad prefix!" ("web01", none)).2 =
        some (Error.notClean "metric root" "bad prefix!") ∧
      (Init sampleEnv (State.initial 0) "" "app" ("web01", none)).2 = some Error.emptyHost ∧
      (Add sampleEnv (Init sampleEnv (State.initial 0) "" "app" ("web01", none)).1 "m" 1 none).err
        = some Error.notInit ∧
      Init sampleEnv sampleState "other" "app2" ("web01", none) =
        (sampleState, some Error.initTwice) :=
  ⟨by decide, by decide, by decide,
    (C9_init_fails_as_documented sampleEnv sampleState "other" "app2" "" "" ("web01", none)
      ("", none) [] "m" 1 none droppedGauge).2.1 (by decide)⟩

/-! ## Gauges -/

section gauges

variable {W : Type}

/-- A call of `Set` that passes validation, in closed form. -/
theorem Set_valid (env : Env W) (s : State W) (m : String) (ts : TagSet) (f : Callback W)
    (hinit : s.tchan ≠ none) (hm : isClean env m) (hts : validTags env (ts.getD [])) :
    Set env s m ts f =
      CallResult.mk none
        { s with
          sets := mapPut (tssOf env s m ts)
                    (setMetric.mk m (some (hostTags s.osHostname (ts.getD []))) f) s.sets }
        (callerTags ts (hostTags s.osHostname (ts.getD []))) :=
  Set_of_check_ok env s m ts f (check_eq_ok env s m ts hinit hm hts)

end gauges

/-- The shape of the registry and of the channel around the gauge of an identity. In an
initialised pipeline, after `Set(m, ts, f)` followed by `Set(m, ts, g)` for a valid
identity, the registry holds exactly one gauge under the identity's key, with callback
`g`. Every `collect` pass on a state with this registry returns and sends one point per
gauge, the one of this gauge carrying what `g` returns when the pass invokes it, on the
world and counters of that moment. The second call may be given the tag set as it was or
as the first call left it. -/
theorem gauge_last_writer_shape {W : Type} (env : Env W) (s : State W) (m : String)
    (ts ts2 : TagSet) (f g : Callback W)
    (hinit : s.tchan ≠ none) (hm : isClean env m) (hts : validTags env (ts.getD []))
    (hhost : isClean env "host") (hreg : RegOK env s)
    (h2 : ts2 = ts ∨ ts2 = (Set env s m ts f).ts) :
    ∃ pre post,
      (Set env (Set env s m ts f).state m ts2 g).err = none ∧
      (Set env (Set env s m ts f).state m ts2 g).state.sets =
        pre ++ (tssOf env s m ts,
          setMetric.mk m (some (hostTags s.osHostname (ts.getD []))) g) :: post ∧
      tssOf env s m ts ∉ keys pre ∧ tssOf env s m ts ∉ keys post ∧
      ∀ (s3 : State W) (c : List DataPoint) (now : Int),
        s3.sets = (Set env (Set env s m ts f).state m ts2 g).state.sets → s3.tchan = some c →
        ∃ s4, collect s3 now = some s4 ∧ s4.sets = s3.sets ∧
          s4.world = worldAfter s3.dropped s3.sent s3.sets s3.world ∧
          s4.tchan = some (c ++ (counterPoints s3.metricRoot now s3.counters ++
            (gaugePoints s3.metricRoot now s3.dropped s3.sent pre s3.world ++
              DataPoint.mk (s3.metricRoot ++ m) now
                  (g { dropped := s3.dropped, sent := s3.sent,
                       world := worldAfter s3.dropped s3.sent pre s3.world }).1
                  (some (hostTags s.osHostname (ts.getD []))) ::
                gaugePoints s3.metricRoot now s3.dropped s3.sent post
                  (g { dropped := s3.dropped, sent := s3.sent,
                       world := worldAfter s3.dropped s3.sent pre s3.world }).2))) := by
  have hname : isClean env s.osHostname := hreg.2.2.2 hinit
  have hkeys : (keys s.sets).Nodup := hreg.2.1
  have e1 := Set_valid env s m ts f hinit hm hts
  have hts2 : validTags env (ts2.getD []) := by
    rcases h2 with h2 | h2
    · rw [h2]; exact hts
    · rw [h2, e1]; exact validTags_callerTags env hhost hname hts
  have hl2 : hostTags s.osHostname (ts2.getD []) = hostTags s.osHostname (ts.getD []) := by
    rcases h2 with h2 | h2
    · rw [h2]
    · rw [h2, e1]; exact hostTags_callerTags _ _
  have e2 := Set_valid env (Set env s m ts f).state m ts2 g
    (by rw [Set_tchan]; exact hinit) hm hts2
  have hhn : (Set env s m ts f).state.osHostname = s.osHostname := by rw [e1]
  have hkey2 : tssOf env (Set env s m ts f).state m ts2 = tssOf env s m ts := by
    unfold tssOf
    rw [hhn, hl2]
  rw [hkey2, hhn, hl2] at e2
  have hsets : (Set env (Set env s m ts f).state m ts2 g).state.sets =
      mapPut (tssOf env s m ts) (setMetric.mk m (some (hostTags s.osHostname (ts.getD []))) g)
        s.sets := by
    rw [e2]
    simp only
    rw [e1]
    simp only [mapPut_mapPut]
  obtain ⟨pre, post, hsplit, hpre, hpost, _⟩ :=
    mapPut_split (tssOf env s m ts)
      (setMetric.mk m (some (hostTags s.osHostname (ts.getD []))) g) hkeys
  refine ⟨pre, post, by rw [e2], hsets.trans hsplit, hpre, hpost, ?_⟩
  intro s3 c now h3 hc
  refine ⟨_, collect_eq s3 now hc, rfl, rfl, ?_⟩
  simp only
  rw [h3, hsets, hsplit, gaugePoints_split]

/-! ## The canonical string of a tag set, in the concrete environment -/

theorem append_cons_inj {α : Type} {c : α} :
    ∀ {a b x y : List α}, c ∉ a → c ∉ b → a ++ c :: x = b ++ c :: y → a = b ∧ x = y := by
  intro a
  induction a with
  | nil =>
    intro b x y _ hb h
    cases b with
    | nil => simpa using h
    | cons b0 br =>
      simp only [List.nil_append, List.cons_append, List.cons.injEq] at h
      exact absurd (by simp [h.1]) hb
  | cons a0 ar ih =>
    intro b x y ha hb h
    cases b with
    | nil =>
      simp only [List.nil_append, List.cons_append, List.cons.injEq] at h
      exact absurd (by simp [h.1]) ha
    | cons b0 br =>
      simp only [List.cons_append, List.cons.injEq] at h
      have ha2 : c ∉ ar := fun hc => ha (List.mem_cons_of_mem _ hc)
      have hb2 : c ∉ br := fun hc => hb (List.mem_cons_of_mem _ hc)
      obtain ⟨h1, h2⟩ := ih ha2 hb2 h.2
      exact ⟨by rw [h.1, h1], h2⟩

theorem isClean_sample_allowed {x : String} (h : isClean sampleEnv x) :
    ∀ c ∈ x.data, allowedChar c = true := by
  have h1 : (String.mk (x.data.filter allowedChar)) = x := h.1
  have h2 : x.data.filter allowedChar = x.data := congrArg String.data h1
  exact List.filter_eq_self.mp h2

theorem not_mem_of_clean {x : String} (h : isClean sampleEnv x) {c : Char}
    (hc : allowedChar c = false) : c ∉ x.data := by
  intro hmem
  have := isClean_sample_allowed h c hmem
  rw [hc] at this
  exact Bool.noConfusion this

theorem tagsBody_cons_cons (k v : String) (e : String × String) (r : Tags) :
    tagsBody ((k, v) :: e :: r) = k.data ++ '=' :: (v.data ++ ',' :: tagsBody (e :: r)) := rfl

theorem tagsBody_single (k v : String) : tagsBody [(k, v)] = k.data ++ '=' :: v.data := rfl

theorem tagsBody_inj : ∀ (l1 l2 : Tags), validTags sampleEnv l1 → validTags sampleEnv l2 →
    tagsBody l1 = tagsBody l2 → l1 = l2 := by
  intro l1
  induction l1 with
  | nil =>
    intro l2 _ _ h
    cases l2 with
    | nil => rfl
    | cons e r =>
      obtain ⟨k, v⟩ := e
      cases r with
      | nil => simp [tagsBody] at h
      | cons e2 r2 => simp [tagsBody] at h
  | cons e1 r1 ih =>
    intro l2 h1 h2 h
    obtain ⟨k1, v1⟩ := e1
    cases l2 with
    | nil =>
      cases r1 with
      | nil => simp [tagsBody] at h
      | cons e2 r2 => simp [tagsBody] at h
    | cons e2 r2 =>
      obtain ⟨k2, v2⟩ := e2
      have c1 := h1 (k1, v1) (by simp)
      have c2 := h2 (k2, v2) (by simp)
      have hr1 : validTags sampleEnv r1 := fun kv hkv => h1 kv (List.mem_cons_of_mem _ hkv)
      have hr2 : validTags sampleEnv r2 := fun kv hkv => h2 kv (List.mem_cons_of_mem _ hkv)
      have eqk1 : '=' ∉ k1.data := not_mem_of_clean c1.1 (by decide)
      have eqk2 : '=' ∉ k2.data := not_mem_of_clean c2.1 (by decide)
      have cv1 : ',' ∉ v1.data := not_mem_of_clean c1.2 (by decide)
      have cv2 : ',' ∉ v2.data := not_mem_of_clean c2.2 (by decide)
      cases r1 with
      | nil =>
        cases r2 with
        | nil =>
          rw [tagsBody_single, tagsBody_single] at h
          obtain ⟨hk, hv⟩ := append_cons_inj eqk1 eqk2 h
          rw [String.ext hk, String.ext hv]
        | cons e3 r3 =>
          rw [tagsBody_single, tagsBody_cons_cons] at h
          obtain ⟨hk, hv⟩ := append_cons_inj eqk1 eqk2 h
          exact absurd (by rw [hv]; simp) cv1
      | cons e3 r3 =>
        cases r2 with
        | nil =>
          rw [tagsBody_single, tagsBody_cons_cons] at h
          obtain ⟨hk, hv⟩ := append_cons_inj eqk1 eqk2 h
          exact absurd (by rw [← hv]; simp) cv2
        | cons e4 r4 =>
          rw [tagsBody_cons_cons, tagsBody_cons_cons] at h
          obtain ⟨hk, hv⟩ := append_cons_inj eqk1 eqk2 h
          obtain ⟨hv2, hrest⟩ := append_cons_inj cv1 cv2 hv
          rw [String.ext hk, String.ext hv2, ih (e4 :: r4) hr1 hr2 hrest]

theorem sampleEnv_keyInjective : KeyInjective sampleEnv := by
  intro m1 m2 l1 l2 hm1 hm2 hl1 hl2 h
  have hd := congrArg String.data h
  have e1 : (m1 ++ sampleEnv.tagString l1).data = m1.data ++ '{' :: (tagsBody l1 ++ ['}']) := by
    simp [sampleEnv, tagStringModel]
  have e2 : (m2 ++ sampleEnv.tagString l2).data = m2.data ++ '{' :: (tagsBody l2 ++ ['}']) := by
    simp [sampleEnv, tagStringModel]
  rw [e1, e2] at hd
  obtain ⟨hm, hb⟩ := append_cons_inj (not_mem_of_clean hm1 (by decide))
    (not_mem_of_clean hm2 (by decide)) hd
  have hb2 : tagsBody l1 = tagsBody l2 := List.append_cancel_right hb
  have hl := tagsBody_inj l1 l2 hl1 hl2 hb2
  exact ⟨String.ext hm, fun k => by rw [hl]⟩

/-! ## The invariant of the registry -/

section invariant

variable {W : Type}

theorem Set_fields (env : Env W) (s : State W) (m : String) (ts : TagSet) (f : Callback W) :
    (Set env s m ts f).state.counters = s.counters ∧
      (Set env s m ts f).state.osHostname = s.osHostname := by
  unfold Set
  cases check env s m ts <;> exact ⟨rfl, rfl⟩

theorem Set_sets_nodup (env : Env W) (s : State W) (m : String) (ts : TagSet) (f : Callback W)
    (h : (keys s.sets).Nodup) : (keys (Set env s m ts f).state.sets).Nodup := by
  unfold Set
  cases check env s m ts with
  | error e => exact h
  | ok l =>
    obtain ⟨_, _, _, _, _, hnd⟩ :=
      mapPut_split (m ++ env.tagString l) (setMetric.mk m (some l) f) h
    exact hnd

theorem RegOK_initial (env : Env W) (w : W) : RegOK env (State.initial w) := by
  refine ⟨by simp [State.initial, keys], by simp [State.initial, keys],
    by simp [State.initial], ?_⟩
  intro h
  exact absurd rfl h

theorem RegOK_Add (env : Env W) (hhost : isClean env "host") (s : State W) (m : String)
    (inc : Int) (ts : TagSet) (h : RegOK env s) : RegOK env (Add env s m inc ts).state := by
  obtain ⟨hnd, hsn, hent, hname⟩ := h
  cases hc : check env s m ts with
  | error e =>
    rw [Add_of_check_error env s m inc ts hc]
    exact ⟨hnd, hsn, hent, hname⟩
  | ok l =>
    have hinit : s.tchan ≠ none := by
      intro hn
      rw [check_error_of_nil env s m ts hn] at hc
      cases hc
    have hm : isClean env m := by
      by_contra hm
      obtain ⟨e, he⟩ := check_error_of_invalid env s m ts (Or.inl hm)
      rw [he] at hc
      cases hc
    have hts : validTags env (ts.getD []) := by
      by_contra hts
      obtain ⟨e, he⟩ := check_error_of_invalid env s m ts (Or.inr hts)
      rw [he] at hc
      cases hc
    rw [Add_valid env s m inc ts hinit hm hts]
    obtain ⟨pre, post, hsplit, _, _, hnd2⟩ := mapPut_split
      (m ++ env.tagString (hostTags s.osHostname (ts.getD [])))
      (addMetric.mk
        (counterAt m (hostTags s.osHostname (ts.getD []))
          (m ++ env.tagString (hostTags s.osHostname (ts.getD []))) s.counters).metric
        (counterAt m (hostTags s.osHostname (ts.getD []))
          (m ++ env.tagString (hostTags s.osHostname (ts.getD []))) s.counters).ts
        (wrap64 ((counterAt m (hostTags s.osHostname (ts.getD []))
          (m ++ env.tagString (hostTags s.osHostname (ts.getD []))) s.counters).value + inc)))
      hnd
    refine ⟨hnd2, hsn, ?_, hname⟩
    intro e he
    rcases mem_mapPut he with he | he
    · rw [he]
      unfold counterAt
      cases hg : mapGet (m ++ env.tagString (hostTags s.osHostname (ts.getD []))) s.counters with
      | none =>
        exact ⟨by simp, by simp, hm, validTags_hostTags env hhost (hname hinit) hts⟩
      | some c =>
        have := hent _ (mem_of_mapGet hg)
        exact this
    · exact hent e he

end invariant

section invariant2

variable {W : Type}

theorem chanSend_fields {s s1 : State W} {dp : DataPoint} (h : chanSend s dp = some s1) :
    s1.counters = s.counters ∧ s1.osHostname = s.osHostname ∧ s.tchan ≠ none ∧
      s1.sets = s.sets := by
  unfold chanSend at h
  cases hc : s.tchan with
  | none => simp [hc] at h
  | some c =>
    simp only [hc, Option.some.injEq] at h
    rw [← h]
    exact ⟨rfl, rfl, by simp, rfl⟩

theorem collectCounters_fields (now : Int) (cs : List (String × addMetric)) :
    ∀ (s s1 : State W), collectCounters now cs s = some s1 →
      s1.counters = s.counters ∧ s1.osHostname = s.osHostname ∧
        (s.tchan = none → s1.tchan = none) ∧ s1.sets = s.sets := by
  induction cs with
  | nil =>
    intro s s1 h
    simp only [collectCounters, Option.some.injEq] at h
    rw [← h]
    exact ⟨rfl, rfl, id, rfl⟩
  | cons e r ih =>
    intro s s1 h
    obtain ⟨k, a⟩ := e
    simp only [collectCounters] at h
    cases hs : chanSend s { Metric := s.metricRoot ++ a.metric, Timestamp := now,
                            Value := a.value, Tags := a.ts } with
    | none => simp [hs] at h
    | some s0 =>
      rw [hs] at h
      obtain ⟨a1, a2, a3, a4⟩ := chanSend_fields hs
      obtain ⟨b1, b2, _, b4⟩ := ih s0 s1 h
      exact ⟨b1.trans a1, b2.trans a2, fun hn => absurd hn (by simpa using a3), b4.trans a4⟩

theorem collectSets_fields (now : Int) (gs : List (String × setMetric W)) :
    ∀ (s s1 : State W), collectSets now gs s = some s1 →
      s1.counters = s.counters ∧ s1.osHostname = s.osHostname ∧
        (s.tchan = none → s1.tchan = none) ∧ s1.sets = s.sets := by
  induction gs with
  | nil =>
    intro s s1 h
    simp only [collectSets, Option.some.injEq] at h
    rw [← h]
    exact ⟨rfl, rfl, id, rfl⟩
  | cons e r ih =>
    intro s s1 h
    obtain ⟨k, g⟩ := e
    simp only [collectSets] at h
    cases hs : chanSend
        { s with world := (g.f { dropped := s.dropped, sent := s.sent, world := s.world }).2 }
        { Metric := s.metricRoot ++ g.metric, Timestamp := now,
          Value := (g.f { dropped := s.dropped, sent := s.sent, world := s.world }).1,
          Tags := g.ts } with
    | none => simp [hs] at h
    | some s0 =>
      rw [hs] at h
      obtain ⟨a1, a2, a3, a4⟩ := chanSend_fields hs
      obtain ⟨b1, b2, _, b4⟩ := ih s0 s1 h
      exact ⟨b1.trans a1, b2.trans a2, fun hn => absurd hn (by simpa using a3), b4.trans a4⟩

theorem collect_fields {s s1 : State W} {now : Int} (h : collect s now = some s1) :
    s1.counters = s.counters ∧ s1.osHostname = s.osHostname ∧
      (s.tchan = none → s1.tchan = none) ∧ s1.sets = s.sets := by
  unfold collect at h
  cases hc : collectCounters now s.counters s with
  | none => simp [hc] at h
  | some s0 =>
    rw [hc] at h
    obtain ⟨a1, a2, a3, a4⟩ := collectCounters_fields now _ s s0 hc
    obtain ⟨b1, b2, b3, b4⟩ := collectSets_fields now _ s0 s1 h
    exact ⟨b1.trans a1, b2.trans a2, fun hn => b3 (a3 hn), b4.trans a4⟩

theorem requeue_fields (t : Int) (batch : List DataPoint) :
    ∀ (s : State W) (old restored : Nat) (r : SendResult W),
      requeue t batch s old restored = some r →
      r.state.counters = s.counters ∧ r.state.osHostname = s.osHostname ∧
        (s.tchan = none → r.state.tchan = none) ∧ r.state.sets = s.sets := by
  induction batch with
  | nil =>
    intro s old restored r h
    simp only [requeue, Option.some.injEq] at h
    rw [← h]
    exact ⟨rfl, rfl, id, rfl⟩
  | cons dp rest ih =>
    intro s old restored r h
    by_cases hlt : dp.Timestamp < t
    · simp only [requeue, if_pos hlt] at h
      exact ih s _ _ r h
    · simp only [requeue, if_neg hlt] at h
      cases hs : chanSend s dp with
      | none => simp [hs] at h
      | some s0 =>
        rw [hs] at h
        obtain ⟨a1, a2, a3, a4⟩ := chanSend_fields hs
        obtain ⟨b1, b2, _, b4⟩ := ih s0 _ _ r h
        exact ⟨b1.trans a1, b2.trans a2, fun hn => absurd hn a3, b4.trans a4⟩

theorem sendBatch_fields {s : State W} {batch : List DataPoint} {o : Outcome} {now : Int}
    {r : SendResult W} (h : sendBatch s batch o now = some r) :
    r.state.counters = s.counters ∧ r.state.osHostname = s.osHostname ∧
      (s.tchan = none → r.state.tchan = none) ∧ r.state.sets = s.sets := by
  unfold sendBatch at h
  by_cases hp : s.Print = true
  · rw [if_pos hp, Option.some.injEq] at h
    rw [← h]
    exact ⟨rfl, rfl, id, rfl⟩
  · rw [if_neg hp] at h
    cases o with
    | encodeError => simp only [Option.some.injEq] at h; rw [← h]; exact ⟨rfl, rfl, id, rfl⟩
    | closeError => simp only [Option.some.injEq] at h; rw [← h]; exact ⟨rfl, rfl, id, rfl⟩
    | requestError => simp only [Option.some.injEq] at h; rw [← h]; exact ⟨rfl, rfl, id, rfl⟩
    | transportError => exact requeue_fields _ _ s 0 0 r h
    | status code =>
      simp only at h
      by_cases h204 : code = 204
      · have h204b : ¬ code ≠ 204 := by simp [h204]
        rw [if_neg h204b, Option.some.injEq] at h
        rw [← h]
        exact ⟨rfl, rfl, id, rfl⟩
      · rw [if_pos h204] at h
        exact requeue_fields _ _ s 0 0 r h

theorem send_fields {s : State W} {o : Outcome} {now : Int} {r : SendResult W}
    (h : send s o now = some r) :
    r.state.counters = s.counters ∧ r.state.osHostname = s.osHostname ∧
      (s.tchan = none → r.state.tchan = none) ∧ r.state.sets = s.sets := by
  unfold send at h
  by_cases hq : (s.queue.length : Int) > 0
  · rw [if_pos hq] at h
    simp only at h
    by_cases hneg : (if (s.queue.length : Int) > s.BatchSize then s.BatchSize
        else (s.queue.length : Int)) < 0
    · rw [if_pos hneg] at h
      simp at h
    · rw [if_neg hneg] at h
      obtain ⟨a1, a2, a3, a4⟩ := sendBatch_fields h
      exact ⟨a1, a2, a3, a4⟩
  · rw [if_neg hq] at h
    simp only [Option.some.injEq] at h
    rw [← h]
    exact ⟨rfl, rfl, id, rfl⟩

theorem consume_fields {s s1 : State W} (h : consume s = some s1) :
    s1.counters = s.counters ∧ s1.osHostname = s.osHostname ∧ s1.sets = s.sets := by
  unfold consume at h
  cases hc : s.tchan with
  | none => simp [hc] at h
  | some c =>
    cases c with
    | nil => simp [hc] at h
    | cons dp rest =>
      simp only [hc, Option.some.injEq] at h
      rw [← h]
      unfold ingest
      split <;> exact ⟨rfl, rfl, rfl⟩

theorem InitChan_counters (env : Env W) (s : State W) (h r : String)
    (ch : Option (List DataPoint)) (host : String × Option String) :
    (InitChan env s h r ch host).1.counters = s.counters := by
  have hf := (setHostName_fields env s host).2.2.1
  unfold InitChan
  by_cases hs : s.tchan ≠ none
  · rw [if_pos hs]
  · rw [if_neg hs]
    rcases hsh : setHostName env s host with ⟨s1, _ | e⟩
    · rw [hsh] at hf
      simp only at hf ⊢
      cases hc : checkClean env r "metric root" with
      | some e => exact hf
      | none =>
        by_cases hh : h = ""
        · simpa [hh] using hf
        · simp only [hh, if_false, (Set_fields env _ _ _ _).1]
          exact hf
    · rw [hsh] at hf
      exact hf

/-- A call of `InitChan` on a pipeline without channel that leaves one has recorded a
host name that passes validation. -/
theorem InitChan_hostname (env : Env W) (s : State W) (h r : String)
    (ch : Option (List DataPoint)) (host : String × Option String) (hs : s.tchan = none)
    (hch : (InitChan env s h r ch host).1.tchan ≠ none) :
    isClean env (InitChan env s h r ch host).1.osHostname ∧
      (InitChan env s h r ch host).1.osHostname = env.ToLower (firstLabel host.1) := by
  have hf := (setHostName_fields env s host).1
  unfold InitChan at hch ⊢
  have hs2 : ¬ s.tchan ≠ none := by simp [hs]
  rw [if_neg hs2] at hch ⊢
  rcases hsh : setHostName env s host with ⟨s1, _ | e⟩
  · rw [hsh] at hf hch
    simp only at hf hch ⊢
    have hname : isClean env s1.osHostname ∧ s1.osHostname = env.ToLower (firstLabel host.1) := by
      unfold setHostName at hsh
      cases h2 : host.2 with
      | some e => simp [h2] at hsh
      | none =>
        simp only [h2, Prod.mk.injEq] at hsh
        rw [← hsh.1]
        exact ⟨(checkClean_eq_none_iff env _ "host tag").1 (by simpa using hsh.2), rfl⟩
    cases hc : checkClean env r "metric root" with
    | some e =>
      rw [hc] at hch
      exact absurd (hf.trans hs) hch
    | none =>
      rw [hc] at hch
      by_cases hh : h = ""
      · simp only [hh, if_true] at hch
        exact absurd (hf.trans hs) hch
      · simp only [hh, if_false, (Set_fields env _ _ _ _).2]
        exact hname
  · rw [hsh] at hf hch
    exact absurd (hf.trans hs) hch

theorem InitChan_sets_nodup (env : Env W) (s : State W) (h r : String)
    (ch : Option (List DataPoint)) (host : String × Option String)
    (hnd : (keys s.sets).Nodup) : (keys (InitChan env s h r ch host).1.sets).Nodup := by
  have hf := (setHostName_fields env s host).2.1
  unfold InitChan
  by_cases hs : s.tchan ≠ none
  · rw [if_pos hs]
    exact hnd
  · rw [if_neg hs]
    rcases hsh : setHostName env s host with ⟨s1, _ | e⟩
    · rw [hsh] at hf
      simp only at hf ⊢
      cases hc : checkClean env r "metric root" with
      | some e =>
        simp only
        rw [hf]
        exact hnd
      | none =>
        by_cases hh : h = ""
        · simp only [hh, if_true]
          rw [hf]
          exact hnd
        · simp only [hh, if_false]
          refine Set_sets_nodup env _ _ _ _ (Set_sets_nodup env _ _ _ _
            (Set_sets_nodup env _ _ _ _ (Set_sets_nodup env _ _ _ _ ?_)))
          simp only
          rw [hf]
          exact hnd
    · rw [hsh] at hf
      simp only
      rw [hf]
      exact hnd

theorem Add_sets (env : Env W) (s : State W) (m : String) (inc : Int) (ts : TagSet) :
    (Add env s m inc ts).state.sets = s.sets := by
  unfold Add
  cases check env s m ts <;> rfl

/-- The invariant is kept by every operation. -/
theorem RegOK_step (env : Env W) (hhost : isClean env "host") (s : State W) (op : Op W)
    (h : RegOK env s) : RegOK env (step env s op) := by
  have keep : ∀ s1 : State W, s1.counters = s.counters → s1.osHostname = s.osHostname →
      (s1.tchan ≠ none → s.tchan ≠ none) → (keys s1.sets).Nodup → RegOK env s1 := by
    intro s1 h1 h2 h3 h4
    obtain ⟨hnd, _, hent, hname⟩ := h
    refine ⟨by rw [h1]; exact hnd, h4, by rw [h1]; exact hent, ?_⟩
    intro hne
    rw [h2]
    exact hname (h3 hne)
  have hsn : (keys s.sets).Nodup := h.2.1
  cases op with
  | init h0 r host =>
    simp only [step, Init]
    by_cases hs : s.tchan = none
    · obtain ⟨hnd, _, hent, _⟩ := h
      refine ⟨by rw [InitChan_counters]; exact hnd, InitChan_sets_nodup env s h0 r _ host hsn,
        by rw [InitChan_counters]; exact hent, ?_⟩
      intro hne
      exact (InitChan_hostname env s h0 r _ host hs hne).1
    · rw [InitChan_of_init env s h0 r _ host hs]
      exact h
  | add m inc ts => exact RegOK_Add env hhost s m inc ts h
  | set m ts f =>
    simp only [step]
    exact keep _ (Set_fields env s m ts f).1 (Set_fields env s m ts f).2
      (by rw [Set_tchan]; exact id) (Set_sets_nodup env s m ts f hsn)
  | snapshot now =>
    simp only [step]
    cases hc : collect s now with
    | none => exact h
    | some s1 =>
      obtain ⟨a1, a2, a3, a4⟩ := collect_fields hc
      exact keep s1 a1 a2 (fun hne hn => hne (a3 hn)) (by rw [a4]; exact hsn)
  | receive =>
    simp only [step]
    cases hc : consume s with
    | none => exact h
    | some s1 =>
      obtain ⟨a1, a2, a4⟩ := consume_fields hc
      refine keep s1 a1 a2 (fun _ hn => ?_) (by rw [a4]; exact hsn)
      unfold consume at hc
      simp [hn] at hc
  | deliver o now =>
    simp only [step]
    cases hc : send s o now with
    | none => exact h
    | some r =>
      obtain ⟨a1, a2, a3, a4⟩ := send_fields hc
      exact keep r.state a1 a2 (fun hne hn => hne (a3 hn)) (by rw [a4]; exact hsn)

/-- The invariant holds in every state the package reaches from its initial one. -/
theorem RegOK_run (env : Env W) (hhost : isClean env "host") (ops : List (Op W)) :
    ∀ s : State W, RegOK env s → RegOK env (run env s ops) := by
  induction ops with
  | nil => intro s h; exact h
  | cons op r ih =>
    intro s h
    exact ih _ (RegOK_step env hhost s op h)

/-- Only a call of `Init` that returns no error puts a channel in `tchan`: any other
operation on a pipeline without channel leaves it without channel. Together with
`step_tchan`, this makes `tchan = nil` the state in which `Init` never succeeded. -/
theorem step_tchan_none (env : Env W) (s : State W) (op : Op W) (hs : s.tchan = none)
    (hop : ∀ h r host, op = Op.init h r host → (Init env s h r host).2 ≠ none) :
    (step env s op).tchan = none := by
  cases op with
  | init h r host =>
    simp only [step]
    exact (InitChan_error_fields env s h r _ host (hop h r host rfl)).1.trans hs
  | add m inc ts =>
    simp only [step]
    rw [Add_tchan]
    exact hs
  | set m ts f =>
    simp only [step]
    rw [Set_tchan]
    exact hs
  | snapshot now =>
    simp only [step]
    cases hc : collect s now with
    | none => exact hs
    | some s1 => exact (collect_fields hc).2.2.1 hs
  | receive =>
    simp only [step, consume, hs]
    exact hs
  | deliver o now =>
    simp only [step]
    cases hc : send s o now with
    | none => exact hs
    | some r => exact (send_fields hc).2.2.1 hs

end invariant2

/-- C4. Default host tag. In an initialised pipeline, after `Add(m, inc, ts)` for a valid
identity the registry holds exactly one counter under the identity's key, for the metric
`m`. When `ts` has no `host` key (the nil tag set included), the tag set stored with the
counter is, as a map, `ts` with the one extra entry `host = osHostname`, and it is the
list `ts ++ [(host, osHostname)]` when this call created the counter. When `ts` has a
`host` key, the stored tag set is `ts`, the supplied host value kept. The point a
`collect` pass sends for the counter carries the stored tag set. -/
theorem C4_default_host_tag {W : Type} (env : Env W) (s : State W) (m : String) (inc : Int)
    (ts : TagSet) (c : List DataPoint) (now : Int)
    (hinit : s.tchan = some c) (hm : isClean env m) (hts : validTags env (ts.getD []))
    (hhost : isClean env "host") (hinj : KeyInjective env) (hreg : RegOK env s) :
    ∃ pre post e stored s2,
      (Add env s m inc ts).err = none ∧
      (Add env s m inc ts).state.counters = pre ++ (tssOf env s m ts, e) :: post ∧
      tssOf env s m ts ∉ keys pre ∧ tssOf env s m ts ∉ keys post ∧
      e.metric = m ∧ e.ts = some stored ∧
      (mapGet "host" (ts.getD []) = none →
        (∀ k, mapGet k stored =
          if k = "host" then some s.osHostname else mapGet k (ts.getD [])) ∧
        (mapGet (tssOf env s m ts) s.counters = none →
          stored = ts.getD [] ++ [("host", s.osHostname)])) ∧
      (mapGet "host" (ts.getD []) ≠ none →
        (∀ k, mapGet k stored = mapGet k (ts.getD [])) ∧
        (mapGet (tssOf env s m ts) s.counters = none → stored = ts.getD [])) ∧
      collect (Add env s m inc ts).state now = some s2 ∧
      s2.tchan = some (c ++ (counterPoints s.metricRoot now pre ++
        DataPoint.mk (s.metricRoot ++ m) now e.value (some stored) ::
          counterPoints s.metricRoot now post ++
        gaugePoints s.metricRoot now s.dropped s.sent s.sets s.world)) := by
  obtain ⟨hnd, _, hent, hname⟩ := hreg
  have hne : s.tchan ≠ none := by simp [hinit]
  have hl : validTags env (hostTags s.osHostname (ts.getD [])) :=
    validTags_hostTags env hhost (hname hne) hts
  have eA := Add_valid env s m inc ts hne hm hts
  -- the counter the call works on: its metric is `m`, its tag set the map `hostTags ..`
  have hc : ∃ stored,
      (counterAt m (hostTags s.osHostname (ts.getD [])) (tssOf env s m ts) s.counters).metric = m ∧
      (counterAt m (hostTags s.osHostname (ts.getD [])) (tssOf env s m ts) s.counters).ts
        = some stored ∧
      (∀ k, mapGet k stored = mapGet k (hostTags s.osHostname (ts.getD []))) ∧
      (mapGet (tssOf env s m ts) s.counters = none →
        stored = hostTags s.osHostname (ts.getD [])) := by
    unfold counterAt
    cases hg : mapGet (tssOf env s m ts) s.counters with
    | none => exact ⟨_, rfl, rfl, fun _ => rfl, fun _ => rfl⟩
    | some c0 =>
      have hok := hent _ (mem_of_mapGet hg)
      unfold entryOK at hok
      simp only at hok
      obtain ⟨h1, h2, h3, h4⟩ := hok
      obtain ⟨lc, hlc⟩ := Option.ne_none_iff_exists'.mp h1
      simp only [hlc, Option.getD_some] at h2 h4
      obtain ⟨e1, e2⟩ := hinj c0.metric m lc _ h3 hm h4 hl h2.symm
      exact ⟨lc, e1, hlc, e2, fun hx => by simp at hx⟩
  obtain ⟨stored, hc1, hc2, hc3, hc4⟩ := hc
  obtain ⟨pre, post, hsplit, hpre, hpost, _⟩ := mapPut_split (tssOf env s m ts)
    (addMetric.mk
      (counterAt m (hostTags s.osHostname (ts.getD [])) (tssOf env s m ts) s.counters).metric
      (counterAt m (hostTags s.osHostname (ts.getD [])) (tssOf env s m ts) s.counters).ts
      (wrap64 ((counterAt m (hostTags s.osHostname (ts.getD []))
        (tssOf env s m ts) s.counters).value + inc))) hnd
  have hcs : (Add env s m inc ts).state.counters = pre ++ (tssOf env s m ts,
      addMetric.mk
        (counterAt m (hostTags s.osHostname (ts.getD [])) (tssOf env s m ts) s.counters).metric
        (counterAt m (hostTags s.osHostname (ts.getD [])) (tssOf env s m ts) s.counters).ts
        (wrap64 ((counterAt m (hostTags s.osHostname (ts.getD []))
          (tssOf env s m ts) s.counters).value + inc))) :: post := by
    rw [eA]
    exact hsplit
  have hct : (Add env s m inc ts).state.tchan = some c := by
    rw [Add_tchan]
    exact hinit
  obtain ⟨s2, hcol, _, _, _, _, _, _, _, h2t⟩ :=
    collect_of_split (Add env s m inc ts).state now hct hcs
  refine ⟨pre, post, _, stored, s2, by rw [eA], hcs, hpre, hpost, hc1, hc2, ?_, ?_, hcol, ?_⟩
  · intro hno
    refine ⟨fun k => ?_, fun hfresh => ?_⟩
    · rw [hc3 k, mapGet_hostTags, hno]
    · rw [hc4 hfresh]
      unfold hostTags
      simp only [hno, Option.isSome_none, Bool.false_eq_true, if_false]
      exact mapPut_of_mapGet_none _ hno
  · intro hyes
    have hsome : (mapGet "host" (ts.getD [])).isSome = true := by
      cases hg : mapGet "host" (ts.getD []) with
      | none => exact absurd hg hyes
      | some v => rfl
    have hl0 : hostTags s.osHostname (ts.getD []) = ts.getD [] := by
      unfold hostTags
      rw [if_pos hsome]
    exact ⟨fun k => by rw [hc3 k, hl0], fun hfresh => by rw [hc4 hfresh, hl0]⟩
  · rw [h2t]
    have hfix : (Add env s m inc ts).state.metricRoot = s.metricRoot ∧
        (Add env s m inc ts).state.dropped = s.dropped ∧
        (Add env s m inc ts).state.sent = s.sent ∧
        (Add env s m inc ts).state.sets = s.sets ∧
        (Add env s m inc ts).state.world = s.world := by
      rw [eA]
      exact ⟨rfl, rfl, rfl, rfl, rfl⟩
    obtain ⟨f1, f2, f3, f4, f5⟩ := hfix
    rw [f1, f2, f3, f4, f5]
    simp only [counterPoint, hc1, hc2]

/-- C4, at concrete inputs on the initialised sample pipeline, which already holds a
counter for `m`: after `Add("m", 5, nil)` the counter of `m` carries the one tag
`host = web01`. -/
theorem C4_default_host_tag_witness :
    ∃ e stored,
      mapGet (tssOf sampleEnv (Add sampleEnv sampleState "m" 1 none).state "m" none)
        (Add sampleEnv (Add sampleEnv sampleState "m" 1 none).state "m" 5 none).state.counters
        = some e ∧
      e.metric = "m" ∧ e.ts = some stored ∧
      ∀ k, mapGet k stored = if k = "host" then some "web01" else none := by
  obtain ⟨pre, post, e, stored, s2, _, h2, h3, _, h5, h6, h7, _, _, _⟩ :=
    C4_default_host_tag sampleEnv (Add sampleEnv sampleState "m" 1 none).state "m" 5 none
      [] 100 (by decide) (by decide) (by decide) (by decide) sampleEnv_keyInjective (by decide)
  refine ⟨e, stored, ?_, h5, h6, ?_⟩
  · rw [h2]
    exact mapGet_split h3
  · intro k
    have hn : (Add sampleEnv sampleState "m" 1 none).state.osHostname = "web01" := by decide
    have := (h7 (by decide)).1 k
    rw [hn] at this
    simpa [mapGet] using this

/-! ## The points of one identity in a pass -/

section identity

variable {W : Type}

theorem String_append_left_cancel {a b c : String} (h : a ++ b = a ++ c) : b = c := by
  have hd := congrArg String.data h
  simp only [String.data_append] at hd
  exact String.ext (List.append_cancel_left hd)

/-- Among the points of counters filed under other keys, none belongs to the identity. -/
theorem counterPoints_not_ofIdentity (env : Env W) (root : String) (now : Int) (m : String)
    (l : Tags) (cs : List (String × addMetric)) (hok : ∀ e ∈ cs, entryOK env e)
    (hk : m ++ env.tagString l ∉ keys cs) :
    ∀ p ∈ counterPoints root now cs, ¬ ofIdentity root m l p := by
  intro p hp hid
  simp only [counterPoints, List.mem_map] at hp
  obtain ⟨e, he, rfl⟩ := hp
  obtain ⟨h1, h2⟩ := hid
  simp only [counterPoint] at h1 h2
  have hm : e.2.metric = m := String_append_left_cancel h1
  obtain ⟨_, hkey, _, _⟩ := hok e he
  rw [hm, h2] at hkey
  simp only [Option.getD_some] at hkey
  apply hk
  simp only [keys, List.mem_map]
  exact ⟨e, he, hkey⟩

/-- Among the points of gauges filed under other keys, none belongs to the identity. -/
theorem gaugePoints_not_ofIdentity (env : Env W) (root : String) (now dropped sent : Int)
    (m : String) (l : Tags) (gs : List (String × setMetric W)) :
    (∀ e ∈ gs, gaugeOK env e) → m ++ env.tagString l ∉ keys gs →
    ∀ (w : W), ∀ p ∈ gaugePoints root now dropped sent gs w, ¬ ofIdentity root m l p := by
  induction gs with
  | nil =>
    intro _ _ w p hp
    simp [gaugePoints] at hp
  | cons e r ih =>
    intro hok hk w p hp
    obtain ⟨k, g⟩ := e
    simp only [gaugePoints, List.mem_cons] at hp
    have hk2 : m ++ env.tagString l ∉ keys r := by
      intro hin
      apply hk
      simp only [keys, List.map_cons, List.mem_cons]
      exact Or.inr hin
    rcases hp with hp | hp
    · intro hid
      obtain ⟨h1, h2⟩ := hid
      rw [hp] at h1 h2
      simp only at h1 h2
      have hm : g.metric = m := String_append_left_cancel h1
      obtain ⟨_, hkey⟩ := hok (k, g) (by simp)
      simp only at hkey
      rw [hm, h2] at hkey
      simp only [Option.getD_some] at hkey
      apply hk
      simp [keys, hkey]
    · exact ih (fun e he => hok e (List.mem_cons_of_mem _ he)) hk2 _ p hp

theorem SetsOK_initial (env : Env W) (w : W) : SetsOK env (State.initial w) := by
  intro e he
  simp [State.initial] at he

theorem SetsOK_Set (env : Env W) (s : State W) (m : String) (ts : TagSet) (f : Callback W)
    (h : SetsOK env s) : SetsOK env (Set env s m ts f).state := by
  unfold Set
  cases check env s m ts with
  | error e => exact h
  | ok l =>
    intro e he
    rcases mem_mapPut he with he | he
    · rw [he]
      exact ⟨by simp, by simp⟩
    · exact h e he

theorem SetsOK_of_sets {env : Env W} {s s1 : State W} (h : SetsOK env s)
    (heq : s1.sets = s.sets) : SetsOK env s1 := by
  unfold SetsOK
  rw [heq]
  exact h

theorem SetsOK_InitChan (env : Env W) (s : State W) (h r : String)
    (ch : Option (List DataPoint)) (host : String × Option String) (hok : SetsOK env s) :
    SetsOK env (InitChan env s h r ch host).1 := by
  have hf := (setHostName_fields env s host).2.1
  unfold InitChan
  by_cases hs : s.tchan ≠ none
  · rw [if_pos hs]
    exact hok
  · rw [if_neg hs]
    rcases hsh : setHostName env s host with ⟨s1, _ | e⟩
    · rw [hsh] at hf
      simp only at hf ⊢
      cases hc : checkClean env r "metric root" with
      | some e => exact SetsOK_of_sets hok hf
      | none =>
        by_cases hh : h = ""
        · simp only [hh, if_true]
          exact SetsOK_of_sets hok hf
        · simp only [hh, if_false]
          refine SetsOK_Set env _ _ _ _ (SetsOK_Set env _ _ _ _
            (SetsOK_Set env _ _ _ _ (SetsOK_Set env _ _ _ _ ?_)))
          exact SetsOK_of_sets hok hf
    · rw [hsh] at hf
      exact SetsOK_of_sets hok hf

/-- The invariant of the gauges is kept by every operation. -/
theorem SetsOK_step (env : Env W) (s : State W) (op : Op W) (h : SetsOK env s) :
    SetsOK env (step env s op) := by
  cases op with
  | init h0 r host => exact SetsOK_InitChan env s h0 r _ host h
  | add m inc ts => exact SetsOK_of_sets h (Add_sets env s m inc ts)
  | set m ts f => exact SetsOK_Set env s m ts f h
  | snapshot now =>
    simp only [step]
    cases hc : collect s now with
    | none => exact h
    | some s1 => exact SetsOK_of_sets h (collect_fields hc).2.2.2
  | receive =>
    simp only [step]
    cases hc : consume s with
    | none => exact h
    | some s1 => exact SetsOK_of_sets h (consume_fields hc).2.2
  | deliver o now =>
    simp only [step]
    cases hc : send s o now with
    | none => exact h
    | some r => exact SetsOK_of_sets h (send_fields hc).2.2.2

/-- The invariant of the gauges holds in every state the package reaches from its
initial one. -/
theorem SetsOK_run (env : Env W) (ops : List (Op W)) :
    ∀ s : State W, SetsOK env s → SetsOK env (run env s ops) := by
  induction ops with
  | nil => intro s h; exact h
  | cons op r ih =>
    intro s h
    exact ih _ (SetsOK_step env s op h)

end identity

/-- C10, the code at a failing input: on the initialised sample pipeline,
`Set("g", nil, droppedGauge)` then `Set("g", nil, sevenThenNine)`, and then
`Add("g", 5, nil)`. The pass at time 100 sends two data points for the identity
`app.g{host=web01}`, not one: the counter's, of value 5, and the gauge's, of value 7. -/
theorem C10_gauge_and_counter_two_points :
    (collect (Add sampleEnv (Set sampleEnv (Set sampleEnv sampleState "g" none
          droppedGauge).state "g" none sevenThenNine).state "g" 5 none).state 100).map
        (fun s4 => (s4.tchan.getD []).filter
          (fun dp => ofIdentity "app." "g" [("host", "web01")] dp)) =
      some [DataPoint.mk "app.g" 100 5 (some [("host", "web01")]),
            DataPoint.mk "app.g" 100 7 (some [("host", "web01")])] := by
  decide

/-- C10, as amended. Gauge freshness, last writer wins. In an initialised pipeline, after
`Set(m, ts, f)` followed by `Set(m, ts, g)` for a valid identity, the registry holds
exactly one gauge under the identity's key, with callback `g`. Every `collect` pass on a
state with this registry of gauges and no counter under the identity's key returns and
sends exactly one data point for the identity, whose value is what `g` returns when the
pass invokes it, on the world and counters of that moment (nothing is kept from one pass
to the next): no other point of the pass has the identity's metric and tags. The second
call may be given the tag set as it was or as the first call left it. -/
theorem C10_gauge_freshness_last_writer {W : Type} (env : Env W) (s : State W) (m : String)
    (ts ts2 : TagSet) (f g : Callback W)
    (hinit : s.tchan ≠ none) (hm : isClean env m) (hts : validTags env (ts.getD []))
    (hhost : isClean env "host") (hreg : RegOK env s) (hsets : SetsOK env s)
    (h2 : ts2 = ts ∨ ts2 = (Set env s m ts f).ts) :
    ∃ pre post,
      (Set env (Set env s m ts f).state m ts2 g).err = none ∧
      (Set env (Set env s m ts f).state m ts2 g).state.sets =
        pre ++ (tssOf env s m ts,
          setMetric.mk m (some (hostTags s.osHostname (ts.getD []))) g) :: post ∧
      tssOf env s m ts ∉ keys pre ∧ tssOf env s m ts ∉ keys post ∧
      ∀ (s3 : State W) (c : List DataPoint) (now : Int),
        s3.sets = (Set env (Set env s m ts f).state m ts2 g).state.sets → s3.tchan = some c →
        RegOK env s3 → tssOf env s m ts ∉ keys s3.counters →
        ∃ s4, collect s3 now = some s4 ∧ s4.sets = s3.sets ∧
          s4.world = worldAfter s3.dropped s3.sent s3.sets s3.world ∧
          s4.tchan = some (c ++ (counterPoints s3.metricRoot now s3.counters ++
            (gaugePoints s3.metricRoot now s3.dropped s3.sent pre s3.world ++
              DataPoint.mk (s3.metricRoot ++ m) now
                  (g { dropped := s3.dropped, sent := s3.sent,
                       world := worldAfter s3.dropped s3.sent pre s3.world }).1
                  (some (hostTags s.osHostname (ts.getD []))) ::
                gaugePoints s3.metricRoot now s3.dropped s3.sent post
                  (g { dropped := s3.dropped, sent := s3.sent,
                       world := worldAfter s3.dropped s3.sent pre s3.world }).2))) ∧
          (∀ p ∈ counterPoints s3.metricRoot now s3.counters ++
              (gaugePoints s3.metricRoot now s3.dropped s3.sent pre s3.world ++
                gaugePoints s3.metricRoot now s3.dropped s3.sent post
                  (g { dropped := s3.dropped, sent := s3.sent,
                       world := worldAfter s3.dropped s3.sent pre s3.world }).2),
            ¬ ofIdentity s3.metricRoot m (hostTags s.osHostname (ts.getD [])) p) := by
  obtain ⟨pre, post, e1, e2, e3, e4, hshape⟩ :=
    gauge_last_writer_shape env s m ts ts2 f g hinit hm hts hhost hreg h2
  have hs2 : SetsOK env (Set env (Set env s m ts f).state m ts2 g).state :=
    SetsOK_Set env _ m ts2 g (SetsOK_Set env s m ts f hsets)
  unfold SetsOK at hs2
  rw [e2] at hs2
  refine ⟨pre, post, e1, e2, e3, e4, ?_⟩
  intro s3 c now h3 hc hreg3 hnoc
  obtain ⟨s4, a1, a2, a3, a4⟩ := hshape s3 c now h3 hc
  refine ⟨s4, a1, a2, a3, a4, ?_⟩
  intro p hp
  rcases List.mem_append.mp hp with hp | hp
  · exact counterPoints_not_ofIdentity env _ now m _ s3.counters hreg3.2.2.1 hnoc p hp
  · rcases List.mem_append.mp hp with hp | hp
    · exact gaugePoints_not_ofIdentity env _ now _ _ m _ pre
        (fun x hx => hs2 x (List.mem_append_left _ hx)) e3 _ p hp
    · exact gaugePoints_not_ofIdentity env _ now _ _ m _ post
        (fun x hx => hs2 x (List.mem_append_right _ (List.mem_cons_of_mem _ hx))) e4 _ p hp

/-- C10 as amended, at a concrete input: `Set("g", nil, droppedGauge)` then
`Set("g", nil, sevenThenNine)` on the initialised sample pipeline, which has no counter
for `g`, and two passes, at times 100 and 115: the first sends the value 7 for the
identity and the second the value 9, and they send no other point of the identity. -/
theorem C10_gauge_freshness_last_writer_witness :
    (∃ pre post,
      (Set sampleEnv (Set sampleEnv sampleState "g" none droppedGauge).state "g" none
          sevenThenNine).state.sets =
        pre ++ (tssOf sampleEnv sampleState "g" none,
          setMetric.mk "g" (some [("host", "web01")]) sevenThenNine) :: post ∧
      tssOf sampleEnv sampleState "g" none ∉ keys pre ∧
      tssOf sampleEnv sampleState "g" none ∉ keys post) ∧
    (((collect (Set sampleEnv (Set sampleEnv sampleState "g" none droppedGauge).state "g" none
          sevenThenNine).state 100).bind (fun s4 => collect s4 115)).map
        (fun s5 => (s5.tchan.getD []).filter
          (fun dp => ofIdentity "app." "g" [("host", "web01")] dp))) =
      some [DataPoint.mk "app.g" 100 7 (some [("host", "web01")]),
            DataPoint.mk "app.g" 115 9 (some [("host", "web01")])] := by
  obtain ⟨pre, post, _, h2, h3, h4, _⟩ :=
    C10_gauge_freshness_last_writer sampleEnv sampleState "g" none none droppedGauge
      sevenThenNine (by decide) (by decide) (by decide) (by decide) (by decide) (by decide)
      (Or.inl rfl)
  exact ⟨⟨pre, post, h2, h3, h4⟩, by decide⟩

/-! ## The life of a data point in the sender -/

/-- C12, the code at a failing input: a batch of one point whose JSON encoding fails,
local echo being off. `sendBatch` returns with `sent` as it was, nothing sent back on the
channel and both counts at zero: the point is accounted for in none of the three ways. -/
theorem C12_encode_error_loses_batch :
    ∃ r, sendBatch sampleState [DataPoint.mk "app.m" 5000 2 none] Outcome.encodeError 6000
        = some r ∧
      r.state.sent = sampleState.sent ∧ r.state.tchan = sampleState.tchan ∧
      r.state.queue = sampleState.queue ∧ r.restored = 0 ∧ r.old = 0 ∧
      (r.state.sent - sampleState.sent) + r.restored + r.old
        ≠ ([DataPoint.mk "app.m" 5000 2 none].length : Int) :=
  ⟨_, rfl, rfl, rfl, rfl, rfl, rfl, by decide⟩

/-- C12, as amended. In an initialised pipeline, when `sendBatch` gets as far as the
delivery (local echo, a transport error, or any response of the sink), every point of
the batch is accounted for in exactly one way: `n` points are counted in `sent` (all of
them on success, none on failure), `restored` points are sent back on the ingestion
channel and `old` points are discarded, with `n + restored + old = len(batch)`. When
instead the JSON encoding, the closing of the gzip writer or the construction of the
request fails, `sendBatch` returns with the state as it was and both counts at zero: the
batch is dropped without being counted. -/
theorem C12_sender_lifecycle {W : Type} (s : State W) (batch : List DataPoint) (o : Outcome)
    (now : Int) (c : List DataPoint) (hinit : s.tchan = some c) (hsent : isInt64 s.sent) :
    ((s.Print = true ∨ o = Outcome.transportError ∨ ∃ code, o = Outcome.status code) →
        ∃ r n back, sendBatch s batch o now = some r ∧
          r.state.sent = wrap64 (s.sent + (n : Nat)) ∧
          (n = batch.length ∧ back = [] ∨ n = 0) ∧
          r.state.tchan = some (c ++ back) ∧ back.length = r.restored ∧
          List.Sublist back batch ∧
          n + r.restored + r.old = batch.length) ∧
      (s.Print = false →
        (o = Outcome.encodeError ∨ o = Outcome.closeError ∨ o = Outcome.requestError) →
        sendBatch s batch o now = some { state := s, old := 0, restored := 0 }) := by
  constructor
  · intro ho
    have hfail : s.Print = false →
        (o = Outcome.transportError ∨ ∃ code, o = Outcome.status code ∧ code ≠ 204) →
        ∃ r n back, sendBatch s batch o now = some r ∧
          r.state.sent = wrap64 (s.sent + (n : Nat)) ∧
          (n = batch.length ∧ back = [] ∨ n = 0) ∧
          r.state.tchan = some (c ++ back) ∧ back.length = r.restored ∧
          List.Sublist back batch ∧
          n + r.restored + r.old = batch.length := by
      intro hp hf
      have hsb : sendBatch s batch o now = requeue (now - 1800) batch s 0 0 := by
        unfold sendBatch
        rcases hf with hf | ⟨code, hf, hcode⟩
        · simp [hp, hf]
        · simp [hp, hf, hcode]
      rw [hsb, requeue_eq (now - 1800) batch s c 0 0 hinit]
      refine ⟨_, 0, batch.filter (fun dp => now - 1800 ≤ dp.Timestamp), rfl, ?_, Or.inr rfl,
        rfl, by simp, List.filter_sublist _, ?_⟩
      · simp [wrap64_of_isInt64 hsent]
      · have := filter_lt_add_filter_ge (now - 1800) batch
        simp only [Nat.zero_add]
        omega
    have hok : (s.Print = true ∨ o = Outcome.status 204) →
        ∃ r n back, sendBatch s batch o now = some r ∧
          r.state.sent = wrap64 (s.sent + (n : Nat)) ∧
          (n = batch.length ∧ back = [] ∨ n = 0) ∧
          r.state.tchan = some (c ++ back) ∧ back.length = r.restored ∧
          List.Sublist back batch ∧
          n + r.restored + r.old = batch.length := by
      intro h
      rw [sendBatch_success s batch o now h]
      exact ⟨_, batch.length, [], rfl, rfl, Or.inl ⟨rfl, rfl⟩, by simp [hinit], rfl,
        List.nil_sublist _, by simp⟩
    by_cases hp : s.Print = true
    · exact hok (Or.inl hp)
    · have hp2 : s.Print = false := by simpa using hp
      rcases ho with ho | ho | ⟨code, ho⟩
      · exact absurd ho hp
      · exact hfail hp2 (Or.inl ho)
      · by_cases h204 : code = 204
        · exact hok (Or.inr (by rw [ho, h204]))
        · exact hfail hp2 (Or.inr ⟨code, ho, h204⟩)
  · intro hp ho
    unfold sendBatch
    rcases ho with ho | ho | ho <;> simp [hp, ho]

/-- C12 as amended, at a concrete input: a batch of a stale and a recent point, refused
with status 500 at time 6000; none is counted in `sent`, one is sent back, one is old. -/
theorem C12_sender_lifecycle_witness :
    ∃ r, sendBatch sampleState
        [DataPoint.mk "app.m" 100 1 none, DataPoint.mk "app.m" 5000 2 none]
        (Outcome.status 500) 6000 = some r ∧
      r.state.sent = sampleState.sent ∧ r.restored = 1 ∧ r.old = 1 ∧
      r.state.tchan = some [DataPoint.mk "app.m" 5000 2 none] := by
  obtain ⟨h, _⟩ := C12_sender_lifecycle sampleState
    [DataPoint.mk "app.m" 100 1 none, DataPoint.mk "app.m" 5000 2 none]
    (Outcome.status 500) 6000 [] (by decide) ⟨by decide, by decide⟩
  obtain ⟨r, n, back, hr, _⟩ := h (Or.inr (Or.inr ⟨500, rfl⟩))
  refine ⟨r, hr, ?_⟩
  have hr2 : sendBatch sampleState
      [DataPoint.mk "app.m" 100 1 none, DataPoint.mk "app.m" 5000 2 none]
      (Outcome.status 500) 6000 =
      some { state := { sampleState with tchan := some [DataPoint.mk "app.m" 5000 2 none] },
             old := 1, restored := 1 } := rfl
  rw [hr2] at hr
  cases hr
  exact ⟨rfl, rfl, rfl, rfl⟩

end Collect

namespace Metadata

open Collect (Tags TagSet mapGet mapPut keys callerTags mapGet_mapPut_self mapPut_split
  mapGet_eq_none_iff)

section addmeta

variable {V : Type}

theorem metaTags_idem (h : String) (b : Bool) (l : Tags) :
    metaTags h b (metaTags h b l) = metaTags h b l := by
  by_cases h1 : (b && !(mapGet "host" l).isSome) = true
  · have e1 : metaTags h b l = mapPut "host" h l := by
      unfold metaTags
      rw [if_pos h1]
    rw [e1]
    unfold metaTags
    simp [mapGet_mapPut_self]
  · have e1 : metaTags h b l = l := by
      unfold metaTags
      rw [if_neg h1]
    rw [e1, e1]

/-- A call of `AddMeta` in terms of the key it computes. -/
theorem AddMeta_eq (env : MetaEnv V) (s : MetaState V) (metric : String) (tags : TagSet)
    (name : String) (value : V) (b : Bool) :
    (AddMeta env s metric tags name value b).state =
        { s with metadata := mapPut (metaKey env s metric tags name b) value s.metadata } ∧
      (AddMeta env s metric tags name value b).tags =
        callerTags tags (metaTags s.Hostname b (tags.getD [])) ∧
      loggedChange (AddMeta env s metric tags name value b) =
        (match mapGet (metaKey env s metric tags name b) s.metadata with
          | some prev => !env.DeepEqual prev value
          | none => false) := by
  refine ⟨rfl, rfl, ?_⟩
  unfold loggedChange AddMeta metaKey metaTags
  simp only
  cases mapGet _ s.metadata with
  | none => cases s.metadebug <;> rfl
  | some prev =>
    simp only
    cases env.DeepEqual prev value
    · rfl
    · cases s.metadebug <;> rfl

/-- The keys of the metadata map stay distinct. -/
theorem AddMeta_keys_nodup (env : MetaEnv V) (s : MetaState V) (metric : String) (tags : TagSet)
    (name : String) (value : V) (b : Bool) (h : (keys s.metadata).Nodup) :
    (keys (AddMeta env s metric tags name value b).state.metadata).Nodup := by
  rw [(AddMeta_eq env s metric tags name value b).1]
  obtain ⟨_, _, _, _, _, hnd⟩ := mapPut_split (metaKey env s metric tags name b) value h
  exact hnd

/-- The second of two calls for the same series computes the key of the first, whether
the caller passes the tag set as it was or as the first call left it. -/
theorem metaKey_second (env : MetaEnv V) (s s1 : MetaState V) (metric : String)
    (tags tags2 : TagSet) (name : String) (b : Bool) (hs : s1.Hostname = s.Hostname)
    (h2 : tags2 = tags ∨ tags2 = callerTags tags (metaTags s.Hostname b (tags.getD []))) :
    metaKey env s1 metric tags2 name b = metaKey env s metric tags name b := by
  unfold metaKey
  rw [hs]
  rcases h2 with h2 | h2
  · rw [h2]
  · rw [h2]
    cases tags with
    | none => rfl
    | some l0 => simp [callerTags, metaTags_idem]

end addmeta

/-- C8. Metadata dedup and change log. After `AddMeta(metric, tags, name, v1, h)` followed
by `AddMeta(metric, tags, name, v2, h)` the metadata map holds exactly one entry for the
key `(metric, canonical tags, name)` and its value is `v2`; the second call logs a change
exactly when `v2` is not deeply equal to `v1`; and a first write for a key logs no
change. The second call may be given the tag set as it was or as the first call left it. -/
theorem C8_metadata_dedup_change_log {V : Type} (env : MetaEnv V) (s : MetaState V)
    (metric : String) (tags tags2 : TagSet) (name : String) (v1 v2 : V) (h : Bool)
    (hkeys : (keys s.metadata).Nodup)
    (h2 : tags2 = tags ∨ tags2 = (AddMeta env s metric tags name v1 h).tags) :
    (∃ pre post,
      (AddMeta env (AddMeta env s metric tags name v1 h).state metric tags2 name v2 h).state.metadata
          = pre ++ (metaKey env s metric tags name h, v2) :: post ∧
        metaKey env s metric tags name h ∉ keys pre ∧
        metaKey env s metric tags name h ∉ keys post) ∧
      (loggedChange (AddMeta env (AddMeta env s metric tags name v1 h).state metric tags2 name v2 h)
          = true ↔ env.DeepEqual v1 v2 = false) ∧
      (mapGet (metaKey env s metric tags name h) s.metadata = none →
        loggedChange (AddMeta env s metric tags name v1 h) = false) := by
  obtain ⟨e1s, e1t, e1l⟩ := AddMeta_eq env s metric tags name v1 h
  have hk : metaKey env (AddMeta env s metric tags name v1 h).state metric tags2 name h =
      metaKey env s metric tags name h :=
    metaKey_second env s _ metric tags tags2 name h (by rw [e1s]) (by rw [← e1t]; exact h2)
  obtain ⟨e2s, _, e2l⟩ :=
    AddMeta_eq env (AddMeta env s metric tags name v1 h).state metric tags2 name v2 h
  rw [hk] at e2s e2l
  refine ⟨?_, ?_, ?_⟩
  · obtain ⟨pre, post, hsplit, hpre, hpost, _⟩ :=
      mapPut_split (metaKey env s metric tags name h) v2 hkeys
    refine ⟨pre, post, ?_, hpre, hpost⟩
    rw [e2s, e1s]
    simp only [Collect.mapPut_mapPut]
    exact hsplit
  · rw [e2l, e1s]
    simp only [mapGet_mapPut_self]
    cases env.DeepEqual v1 v2 <;> simp
  · intro hnone
    rw [e1l, hnone]

/-- C8, at a concrete input: the unit of `m` written as `bytes`, then as `seconds`. -/
theorem C8_metadata_dedup_change_log_witness :
    (AddMeta sampleMetaEnv (AddMeta sampleMetaEnv sampleMetaState "m" (some [("a", "b")])
        "unit" "bytes" true).state "m" (some [("a", "b"), ("host", "web01")])
        "unit" "seconds" true).state.metadata =
      [(Metakey.mk "m" "a=b,host=web01" "unit", "seconds")] ∧
    loggedChange (AddMeta sampleMetaEnv (AddMeta sampleMetaEnv sampleMetaState "m"
        (some [("a", "b")]) "unit" "bytes" true).state "m" (some [("a", "b"), ("host", "web01")])
        "unit" "seconds" true) = true ∧
    loggedChange (AddMeta sampleMetaEnv sampleMetaState "m" (some [("a", "b")])
        "unit" "bytes" true) = false := by
  have h := C8_metadata_dedup_change_log sampleMetaEnv sampleMetaState "m" (some [("a", "b")])
    (some [("a", "b"), ("host", "web01")]) "unit" "bytes" "seconds" true (by decide)
    (Or.inr (by decide))
  exact ⟨by decide, h.2.1.2 (by decide), h.2.2 (by decide)⟩

/-- C11, the code at a failing input: `AddMeta("m", {"bad key!": ""}, "unit", "bytes", false)`
on the empty metadata map. The tag key has a blank and a `!`, the tag value is empty, so
neither passes validation; yet the call stores an entry, under the key made of the
unvalidated tags, and the metadata map is no longer what it was. -/
theorem C11_addmeta_stores_invalid_tags :
    ¬ Collect.isClean Collect.sampleEnv "bad key!" ∧ ¬ Collect.isClean Collect.sampleEnv "" ∧
      (AddMeta sampleMetaEnv sampleMetaState "m" (some [("bad key!", "")]) "unit" "bytes"
          false).state.metadata = [(Metakey.mk "m" "bad key!=" "unit", "bytes")] ∧
      (AddMeta sampleMetaEnv sampleMetaState "m" (some [("bad key!", "")]) "unit" "bytes"
          false).state.metadata ≠ sampleMetaState.metadata := by
  decide

/-- C11, as amended. `AddMeta` does not validate its tags: every call, whatever the keys
and values of the tags, stores the value under the key `(metric, tags.Tags(), name)`
computed from the tags as given (with the default host tag when asked for and absent),
and leaves the value of every other key of the metadata map as it was. -/
theorem C11_addmeta_stores_unvalidated {V : Type} (env : MetaEnv V) (s : MetaState V)
    (metric : String) (tags : TagSet) (name : String) (value : V) (setHost : Bool) :
    (AddMeta env s metric tags name value setHost).state.metadata =
        mapPut (metaKey env s metric tags name setHost) value s.metadata ∧
      mapGet (metaKey env s metric tags name setHost)
        (AddMeta env s metric tags name value setHost).state.metadata = some value ∧
      ∀ k, k ≠ metaKey env s metric tags name setHost →
        mapGet k (AddMeta env s metric tags name value setHost).state.metadata =
          mapGet k s.metadata := by
  have h := (AddMeta_eq env s metric tags name value setHost).1
  refine ⟨by rw [h], by rw [h]; exact mapGet_mapPut_self _ _ _, ?_⟩
  intro k hk
  rw [h]
  exact Collect.mapGet_mapPut_ne hk _ _

end Metadata
